import Mathlib

/-!
# Verification of the gRPC debugger protocol/schema engine

Shallow embedding of the JavaScript sources of the gRPC-Web traffic
inspector (proto-engine.js, protobuf-decoder.js, descriptor-parser.js,
reflection-client.js, stores/network.js, stores/schema.js,
schema-manager.js) together with theorems settling the frozen claims
about the natural-language specification.

Modelling conventions:
* byte buffers are `List Nat` (each entry a byte value 0..255, as stored
  in a JS `Uint8Array`);
* cursor-based readers are embedded in "remaining list" style: a
  primitive receives the bytes from the current cursor position onward
  and returns the value together with the number of bytes the JS code
  adds to its cursor (which, as in JS, may exceed the number of bytes
  actually available — the caller `drop`s that amount);
* JS `Number` values that the source only ever uses integrally are
  `Int`/`Nat`; `Number(bigint)` conversions are modelled exactly, which
  matches JS for magnitudes below 2^53 (the IEEE rounding applied above
  2^53 is not modelled — no theorem below inspects such a value);
* JS floating point values produced by `readFloat`/`readDouble` are
  carried as their raw little-endian bit patterns (constructors
  `Value.f32`/`Value.f64`); no claim computes with them;
* unbounded loops of the JS source are embedded with an explicit fuel
  parameter returning `Option`; `none` means the loop has not finished
  within the given fuel.  Non-termination of the source at an input is
  expressed as `∀ fuel, … = none`.
-/

/-! ## Generic byte/number helpers -/

/-- Interpret a natural number as a JS 32-bit signed integer (`ToInt32`). -/
def toInt32 (n : Nat) : Int :=
  if n % 4294967296 < 2147483648 then ((n % 4294967296 : Nat) : Int)
  else ((n % 4294967296 : Nat) : Int) - 4294967296

/-- Little-endian 32-bit value from the first four bytes of a list. -/
def le32 (bs : List Nat) : Nat :=
  bs.getD 0 0 + bs.getD 1 0 * 256 + bs.getD 2 0 * 65536 + bs.getD 3 0 * 16777216

/-- Little-endian 64-bit value from the first eight bytes of a list. -/
def le64 (bs : List Nat) : Nat :=
  le32 bs + (le32 (bs.drop 4)) * 4294967296

/-- Canonical base-128 varint encoding of a natural number
(test-side generator used to state universally quantified theorems). -/
def varintEncode (n : Nat) : List Nat :=
  if h : n < 128 then [n] else (n % 128 + 128) :: varintEncode (n / 128)
decreasing_by exact Nat.div_lt_self (by omega) (by omega)

/-- Big-endian 4-byte encoding of a (< 2^32) length
(test-side generator for gRPC frame headers). -/
def be32 (n : Nat) : List Nat :=
  [n / 16777216 % 256, n / 65536 % 256, n / 256 % 256, n % 256]

/-- Lowercase hexadecimal digits of a byte, as JS `b.toString(16)`
produces them (no padding). -/
def jsHexString (n : Nat) : String :=
  (Nat.toDigits 16 n).asString

/-- JS `s.padStart(2, "x")` — note the source pads single-digit hex
bytes with the letter `x`, not with `0`. -/
def jsPadStartX (s : String) : String :=
  String.mk (List.replicate (2 - s.length) 'x') ++ s

/-! ## UTF-8 (WHATWG `TextDecoder` semantics)

`new TextDecoder("utf-8", …).decode(bytes)` strips one leading byte
order mark and then decodes; with `fatal: true` any error aborts, and
without it each error emits U+FFFD and resumes at the offending byte. -/

/-- Is `b` a UTF-8 continuation byte in the default range 0x80..0xBF? -/
def utf8Cont (b : Nat) : Bool := 128 ≤ b && b ≤ 191

/-- Strict (fatal) WHATWG UTF-8 decoding of a byte list. -/
def utf8DecodeStrict : List Nat → Option (List Char)
  | [] => some []
  | b :: bs =>
    if b ≤ 0x7F then (utf8DecodeStrict bs).map (Char.ofNat b :: ·)
    else if 0xC2 ≤ b && b ≤ 0xDF then
      match bs with
      | c1 :: r =>
        if utf8Cont c1 then
          (utf8DecodeStrict r).map (Char.ofNat ((b - 0xC0) * 64 + (c1 - 0x80)) :: ·)
        else none
      | [] => none
    else if 0xE0 ≤ b && b ≤ 0xEF then
      match bs with
      | c1 :: c2 :: r =>
        let lo1 := if b = 0xE0 then 0xA0 else 0x80
        let hi1 := if b = 0xED then 0x9F else 0xBF
        if (lo1 ≤ c1 && c1 ≤ hi1) && utf8Cont c2 then
          (utf8DecodeStrict r).map
            (Char.ofNat ((b - 0xE0) * 4096 + (c1 - 0x80) * 64 + (c2 - 0x80)) :: ·)
        else none
      | _ => none
    else if 0xF0 ≤ b && b ≤ 0xF4 then
      match bs with
      | c1 :: c2 :: c3 :: r =>
        let lo1 := if b = 0xF0 then 0x90 else 0x80
        let hi1 := if b = 0xF4 then 0x8F else 0xBF
        if ((lo1 ≤ c1 && c1 ≤ hi1) && utf8Cont c2) && utf8Cont c3 then
          (utf8DecodeStrict r).map
            (Char.ofNat ((b - 0xF0) * 262144 + (c1 - 0x80) * 4096 +
              (c2 - 0x80) * 64 + (c3 - 0x80)) :: ·)
        else none
      | _ => none
    else none

/-- Replacement character U+FFFD. -/
def utf8Rep : Char := Char.ofNat 0xFFFD

/-- Lossy (replacement) WHATWG UTF-8 decoding: errors yield U+FFFD and
decoding resumes at the first offending byte. -/
def utf8DecodeLossy : List Nat → List Char
  | [] => []
  | b :: bs =>
    if b ≤ 0x7F then Char.ofNat b :: utf8DecodeLossy bs
    else if 0xC2 ≤ b && b ≤ 0xDF then
      match bs with
      | c1 :: r =>
        if utf8Cont c1 then
          Char.ofNat ((b - 0xC0) * 64 + (c1 - 0x80)) :: utf8DecodeLossy r
        else utf8Rep :: utf8DecodeLossy (c1 :: r)
      | [] => [utf8Rep]
    else if 0xE0 ≤ b && b ≤ 0xEF then
      match bs with
      | c1 :: r1 =>
        let lo1 := if b = 0xE0 then 0xA0 else 0x80
        let hi1 := if b = 0xED then 0x9F else 0xBF
        if lo1 ≤ c1 && c1 ≤ hi1 then
          match r1 with
          | c2 :: r =>
            if utf8Cont c2 then
              Char.ofNat ((b - 0xE0) * 4096 + (c1 - 0x80) * 64 + (c2 - 0x80)) ::
                utf8DecodeLossy r
            else utf8Rep :: utf8DecodeLossy (c2 :: r)
          | [] => [utf8Rep]
        else utf8Rep :: utf8DecodeLossy (c1 :: r1)
      | [] => [utf8Rep]
    else if 0xF0 ≤ b && b ≤ 0xF4 then
      match bs with
      | c1 :: r1 =>
        let lo1 := if b = 0xF0 then 0x90 else 0x80
        let hi1 := if b = 0xF4 then 0x8F else 0xBF
        if lo1 ≤ c1 && c1 ≤ hi1 then
          match r1 with
          | c2 :: r2 =>
            if utf8Cont c2 then
              match r2 with
              | c3 :: r =>
                if utf8Cont c3 then
                  Char.ofNat ((b - 0xF0) * 262144 + (c1 - 0x80) * 4096 +
                    (c2 - 0x80) * 64 + (c3 - 0x80)) :: utf8DecodeLossy r
                else utf8Rep :: utf8DecodeLossy (c3 :: r)
              | [] => [utf8Rep]
            else utf8Rep :: utf8DecodeLossy (c2 :: r2)
          | [] => [utf8Rep]
        else utf8Rep :: utf8DecodeLossy (c1 :: r1)
      | [] => [utf8Rep]
    else utf8Rep :: utf8DecodeLossy bs

/-- Strip a single leading UTF-8 byte order mark, as `TextDecoder` does. -/
def stripBOM (bs : List Nat) : List Nat :=
  match bs with
  | 0xEF :: 0xBB :: 0xBF :: r => r
  | _ => bs

/-- `new TextDecoder("utf-8", \x7bfatal: true\x7d).decode(bytes)`. -/
def jsTextDecodeFatal (bs : List Nat) : Option String :=
  (utf8DecodeStrict (stripBOM bs)).map String.mk

/-- `new TextDecoder().decode(bytes)` (replacement on error). -/
def jsTextDecodeLossy (bs : List Nat) : String :=
  String.mk (utf8DecodeLossy (stripBOM bs))

/-- JS `s.endsWith(suffix)` (literal suffix test). -/
def jsEndsWith (s suffix : String) : Bool :=
  List.isSuffixOf suffix.toList s.toList

/-- JS `s.toLowerCase()` (character-wise; all names involved are ASCII). -/
def jsToLower (s : String) : String :=
  String.mk (s.toList.map Char.toLower)

/-- Helper for `jsSplitDot`. -/
def splitDotAux : List Char → List Char → List String
  | [], cur => [String.mk cur.reverse]
  | c :: rest, cur =>
    if c = '.' then String.mk cur.reverse :: splitDotAux rest []
    else splitDotAux rest (c :: cur)

/-- JS `s.split(".")` (literal one-character separator; `""` yields
`[""]`). -/
def jsSplitDot (s : String) : List String :=
  splitDotAux s.toList []

/-- UTF-16 code units of a decoded JS string (astral characters split
into surrogate pairs), used by printability heuristics that iterate a
JS string with `split("")`/`charCodeAt`. -/
def utf16Units (cs : List Char) : List Nat :=
  cs.flatMap fun c =>
    if c.toNat < 0x10000 then [c.toNat]
    else [0xD800 + (c.toNat - 0x10000) / 1024, 0xDC00 + (c.toNat - 0x10000) % 1024]

/-! ## proto-engine.js — legacy schema-driven engine

Embedding of the first `ProtoEngine`/`ProtoReader` implementation in
src/lib/proto-engine.js (the schema-driven integrated decoder). -/

namespace PE

/-- Decoded JS value as produced by the engine.  The embedding keeps the
JS runtime type distinctions the source relies on: `num` is a `Number`
holding an integral value, `f32`/`f64` are `Number`s produced by float
reads (carried as raw little-endian bit patterns), `big` is a `BigInt`,
`str`/`bytes`/`arr`/`obj` are the obvious shapes, `vnull` is `null`.
Objects are association lists in JS insertion order. -/
inductive Value where
  | vnull : Value
  | bool (b : Bool) : Value
  | num (n : Int) : Value
  | f32 (bits : Nat) : Value
  | f64 (bits : Nat) : Value
  | big (n : Int) : Value
  | str (s : String) : Value
  | bytes (bs : List Nat) : Value
  | arr (vs : List Value) : Value
  | obj (fs : List (String × Value)) : Value
deriving Repr

/-- Legacy field descriptor shape consumed by the engine. -/
structure FieldDef where
  name : String
  number : Nat
  type : Nat
  type_name : Option String := none
deriving Repr, DecidableEq

/-- Legacy message/enum definition shape stored in `this.schemas`. -/
structure MessageDef where
  fields : List FieldDef := []
  isEnum : Bool := false
  values : List (Nat × String) := []
deriving Repr, DecidableEq

/-- The engine's schema registry: full name → definition, a JS `Map`
in insertion order with unique keys. -/
abbrev Engine := List (String × MessageDef)

/-- `typeName.replace(/^\.+/, "")`. -/
def stripDots (s : String) : String :=
  String.mk (s.toList.dropWhile (· = '.'))

/-- `ProtoEngine.findMessage`: four-stage fallback name resolution. -/
def findMessage (eng : Engine) : Option String → Option MessageDef
  | none => none
  | some typeName =>
    if typeName = "" then none
    else
      let cleanName := stripDots typeName
      match (eng.find? (fun kv => kv.1 == cleanName)).map (·.2) with
      | some m => some m
      | none =>
        match (eng.find? (fun kv =>
            jsEndsWith kv.1 ("." ++ cleanName) || kv.1 == cleanName)).map (·.2) with
        | some m => some m
        | none =>
          let lowerClean := jsToLower cleanName
          match (eng.find? (fun kv => jsEndsWith (jsToLower kv.1) lowerClean)).map (·.2) with
          | some m => some m
          | none =>
            let tailSegment := (jsSplitDot cleanName).getLastD ""
            if tailSegment ≠ "" then
              let candidates := (eng.filter (fun kv =>
                (jsSplitDot kv.1).getLastD "" == tailSegment)).map (·.2)
              if candidates.length = 1 then candidates.head? else none
            else none

/-- `isPackableType`. -/
def isPackableType (t : Nat) : Bool :=
  [1, 2, 3, 4, 5, 6, 7, 8, 13, 14, 15, 16, 17, 18].contains t

/-- `ProtoReader.readVarint` (BigInt accumulation, no bounds check;
at end-of-buffer the partial value accumulated so far is returned).
Remaining-list style: result is `(value, bytes consumed)`. -/
def readVarintAux : List Nat → Nat → Nat → Nat × Nat
  | [], val, _ => (val, 0)
  | b :: bs, val, shift =>
    let val' := val ||| ((b &&& 0x7f) <<< shift)
    if b &&& 0x80 = 0 then (val', 1)
    else
      let (v, c) := readVarintAux bs val' (shift + 7)
      (v, c + 1)

def readVarint (rem : List Nat) : Nat × Nat := readVarintAux rem 0 0

/-- `ProtoReader.readBytes`: varint length then slice (clamped), the
cursor advances by the requested length even when it overshoots. -/
def readBytes (rem : List Nat) : List Nat × Nat :=
  let (len, c) := readVarint rem
  ((rem.drop c).take len, c + len)

/-- `ProtoReader.readString` (lossy UTF-8 via `new TextDecoder()`). -/
def readString (rem : List Nat) : String × Nat :=
  let (bs, c) := readBytes rem
  (jsTextDecodeLossy bs, c)

/-- `ProtoReader.readFixed32`; returns 0 without advancing at EOF. -/
def readFixed32 (rem : List Nat) : Nat × Nat :=
  if rem.length < 4 then (0, 0) else (le32 rem, 4)

/-- `ProtoReader.readSFixed32`. -/
def readSFixed32 (rem : List Nat) : Int × Nat :=
  if rem.length < 4 then (0, 0) else (toInt32 (le32 rem), 4)

/-- `ProtoReader.readFixed64` (BigInt). -/
def readFixed64 (rem : List Nat) : Nat × Nat :=
  if rem.length < 8 then (0, 0) else (le64 rem, 8)

/-- `ProtoReader.readSFixed64` (BigInt, high word signed). -/
def readSFixed64 (rem : List Nat) : Int × Nat :=
  if rem.length < 8 then (0, 0)
  else (toInt32 (le32 (rem.drop 4)) * 4294967296 + (le32 rem : Int), 8)

/-- `ProtoReader.readFloat` (bit pattern carried opaquely). -/
def readFloat (rem : List Nat) : Value × Nat :=
  if rem.length < 4 then (.num 0, 0) else (.f32 (le32 rem), 4)

/-- `ProtoReader.readDouble` (bit pattern carried opaquely). -/
def readDouble (rem : List Nat) : Value × Nat :=
  if rem.length < 8 then (.num 0, 0) else (.f64 (le64 rem), 8)

/-- `ProtoReader.readSVarint` — ZigZag after `Number()` conversion and
JS `>>>`-induced reduction mod 2^32. -/
def readSVarint (rem : List Nat) : Int × Nat :=
  let (n, c) := readVarint rem
  let m := n % 4294967296
  (if m % 2 = 1 then -((m / 2 : Nat) : Int) - 1 else ((m / 2 : Nat) : Int), c)

/-- `ProtoReader.readSVarint64` — BigInt ZigZag `(n >> 1n) ^ -(n & 1n)`. -/
def readSVarint64 (rem : List Nat) : Int × Nat :=
  let (n, c) := readVarint rem
  (if n % 2 = 1 then -((n / 2 : Nat) : Int) - 1 else ((n / 2 : Nat) : Int), c)

/-- `ProtoReader.readField` — blind read dispatched on the wire type. -/
def readField (wireType : Nat) (rem : List Nat) : Value × Nat :=
  if wireType = 0 then
    let (n, c) := readVarint rem
    (.str (toString n), c)
  else if wireType = 1 then
    let (n, c) := readFixed64 rem
    (.str (toString n), c)
  else if wireType = 2 then
    let (bs, c) := readBytes rem
    (.bytes bs, c)
  else if wireType = 5 then
    let (n, c) := readFixed32 rem
    (.num n, c)
  else (.vnull, 0)

/-- Number-keyed lookup in an enum's `values` object. -/
def lookupNum (vs : List (Nat × String)) (n : Nat) : Option String :=
  (vs.find? (fun p => p.1 == n)).map (·.2)

/-- `ProtoEngine.readFieldValue` — typed read dispatched on the
declared field type. -/
def readFieldValue (eng : Engine) (f : FieldDef) (wireType : Nat)
    (rem : List Nat) : Value × Nat :=
  if f.type = 1 then readDouble rem
  else if f.type = 2 then readFloat rem
  else if f.type = 3 then
    let (n, c) := readVarint rem
    (.str (toString n), c)
  else if f.type = 4 then
    let (n, c) := readVarint rem
    (.str (toString n), c)
  else if f.type = 5 then
    let (n, c) := readVarint rem
    (.big n, c)
  else if f.type = 6 then
    let (n, c) := readFixed64 rem
    (.str (toString n), c)
  else if f.type = 7 then
    let (n, c) := readFixed32 rem
    (.num n, c)
  else if f.type = 8 then
    let (n, c) := readVarint rem
    (.bool (decide (n ≠ 0)), c)
  else if f.type = 9 then
    let (s, c) := readString rem
    (.str s, c)
  else if f.type = 12 then
    let (bs, c) := readBytes rem
    (.bytes bs, c)
  else if f.type = 13 then
    let (n, c) := readVarint rem
    (.num n, c)
  else if f.type = 14 then
    let (n, c) := readVarint rem
    match findMessage eng f.type_name with
    | some ed =>
      if ed.isEnum then
        match lookupNum ed.values n with
        | some nm => (.str nm, c)
        | none => (.num n, c)
      else (.num n, c)
    | none => (.num n, c)
  else if f.type = 15 then
    let (n, c) := readSFixed32 rem
    (.num n, c)
  else if f.type = 16 then
    let (n, c) := readSFixed64 rem
    (.str (toString n), c)
  else if f.type = 17 then
    let (n, c) := readSVarint rem
    (.num n, c)
  else if f.type = 18 then
    let (n, c) := readSVarint64 rem
    (.str (toString n), c)
  else readField wireType rem

/-- `new Map(fields.map(f => [f.number, f]))` — a JS `Map` constructor
keeps the LAST entry for a duplicated key. -/
def fieldLookup (fields : List FieldDef) (n : Nat) : Option FieldDef :=
  fields.reverse.find? (fun f => f.number == n)

/-- `result[fieldName] = value` / repeated-field accumulation of
`_decode`: an existing non-array value is wrapped into an array, array
values (packed reads) are spread. -/
def jsSetAssoc (obj : List (String × Value)) (k : String) (v : Value) :
    List (String × Value) :=
  if obj.any (·.1 == k) then obj.map (fun p => if p.1 == k then (k, v) else p)
  else obj ++ [(k, v)]

def jsAccumulate (obj : List (String × Value)) (k : String) (v : Value) :
    List (String × Value) :=
  match (obj.find? (·.1 == k)).map (·.2) with
  | none => jsSetAssoc obj k v
  | some old =>
    let base := match old with | .arr l => l | o => [o]
    let add := match v with | .arr l => l | o => [o]
    jsSetAssoc obj k (.arr (base ++ add))

/-- Inner `while (packReader.pos < packReader.len)` loop of the packed
branch of `_decode`.  The JS loop has no progress guarantee (fixed-width
reads at EOF do not advance), hence the fuel. -/
def packedLoop (eng : Engine) (f : FieldDef) :
    Nat → List Nat → List Value → Option (List Value)
  | 0, _, _ => none
  | fuel + 1, rem, acc =>
    if rem.isEmpty then some acc
    else
      let (v, adv) := readFieldValue eng f f.type rem
      packedLoop eng f fuel (rem.drop adv) (acc ++ [v])

/-- `ProtoEngine._decode` main tag loop.  Returns the decoded object
together with the total cursor advance (the JS `reader.pos`, which may
exceed the buffer length). -/
def decodeLoop (eng : Engine) :
    Nat → Option MessageDef → List Nat → List (String × Value) →
    Option (List (String × Value) × Nat)
  | 0, _, _, _ => none
  | fuel + 1, schema, rem, result =>
    if rem.isEmpty then some (result, 0)
    else
      let (tagN, tagAdv) := readVarint rem
      -- `Number(...)` then `>>> 3` / `& 0x7`: JS reduces the tag mod 2^32
      let tag := tagN % 4294967296
      let fieldNum := tag >>> 3
      let wireType := tag &&& 0x7
      if fieldNum = 0 then some (result, tagAdv)
      else
        let fdefO := match schema with
          | some s => fieldLookup s.fields fieldNum
          | none => none
        let fieldName := match fdefO with
          | some f => f.name
          | none => "field_" ++ toString fieldNum
        let rem1 := rem.drop tagAdv
        let step : Option (Value × Nat) :=
          match fdefO with
          | some fdef =>
            if wireType = 2 && isPackableType fdef.type then
              let (packData, adv) := readBytes rem1
              match packedLoop eng fdef fuel packData [] with
              | none => none
              | some vs => some (.arr vs, adv)
            else if fdef.type = 11 || fdef.type = 18 then
              let (msgData, adv) := readBytes rem1
              let nestedTypeName := stripDots (fdef.type_name.getD "")
              let nestedSchema := findMessage eng (some nestedTypeName)
              match decodeLoop eng fuel nestedSchema msgData [] with
              | none => none
              | some (subObj, _) => some (.obj subObj, adv)
            else some (readFieldValue eng fdef wireType rem1)
          | none =>
            if wireType = 2 then
              let (raw, adv) := readBytes rem1
              match decodeLoop eng fuel none raw [] with
              | none => none
              | some (subObj, subConsumed) =>
                -- `Object.keys(sub).length > 0 && subPos / subLen > 0.8`
                let v :=
                  if 0 < subObj.length && 4 * raw.length < 5 * subConsumed then
                    Value.obj subObj
                  else
                    match jsTextDecodeFatal raw with
                    | some s => Value.str s
                    | none =>
                      Value.str (String.intercalate " "
                        (raw.map (fun b => jsPadStartX (jsHexString b))))
                some (v, adv)
            else some (readField wireType rem1)
        match step with
        | none => none
        | some (v, adv) =>
          let result' := jsAccumulate result fieldName v
          match decodeLoop eng fuel schema (rem1.drop adv) result' with
          | none => none
          | some (res, c) => some (res, tagAdv + adv + c)

/-- `ProtoEngine.decodeMessage` (legacy engine). -/
def decodeMessage (eng : Engine) (fuel : Nat) (typeName : Option String)
    (buffer : List Nat) : Option Value :=
  (decodeLoop eng fuel (findMessage eng typeName) buffer []).map
    (fun rc => .obj rc.1)

end PE

/-! ## protobuf-decoder.js — standalone blind decoder and gRPC-Web framing -/

namespace PD

/-- Values produced by `ProtobufReader`: JS numbers (all < 2^32 here),
strings, the `\x7blow, high\x7d` object of `readFixed64`, nested message
objects keyed by field number, and arrays of repeated values. -/
inductive Value where
  | num (n : Nat) : Value
  | str (s : String) : Value
  | lowHigh (low high : Nat) : Value
  | obj (fs : List (Nat × Value)) : Value
  | arr (vs : List Value) : Value
deriving Repr

/-- `ProtobufReader.readVarint`: 32-bit JS arithmetic (`|=` and `<<`
work on `ToInt32` values, the shift count is masked mod 32), throwing
`"Varint too long"` once `shift` exceeds 35 and
`"Unexpected end of buffer"` at EOF mid-varint.  Errors carry the
cursor position at the moment of the throw (JS `this.pos++` mutations
survive the exception). -/
def readVarintAux : List Nat → Nat → Nat → Nat → Except (String × Nat) (Nat × Nat)
  | [], pos, _, _ => .error ("Unexpected end of buffer", pos)
  | b :: bs, pos, result, shift =>
    let result' := (result ||| ((b &&& 0x7f) <<< (shift % 32))) % 4294967296
    if b &&& 0x80 = 0 then .ok (result', pos + 1)
    else if shift + 7 > 35 then .error ("Varint too long", pos + 1)
    else readVarintAux bs (pos + 1) result' (shift + 7)

def readVarint (data : List Nat) (pos : Nat) : Except (String × Nat) (Nat × Nat) :=
  readVarintAux (data.drop pos) pos 0 0

/-- `ProtobufReader.readFixed32` (little-endian, unsigned via `>>> 0`). -/
def readFixed32 (data : List Nat) (pos : Nat) : Except (String × Nat) (Nat × Nat) :=
  if pos + 4 > data.length then .error ("Unexpected end of buffer", pos)
  else .ok (le32 (data.drop pos), pos + 4)

/-- `ProtobufReader.readFixed64` — two fixed32 reads, kept as a
`\x7blow, high\x7d` object. -/
def readFixed64 (data : List Nat) (pos : Nat) :
    Except (String × Nat) (Value × Nat) :=
  match readFixed32 data pos with
  | .error e => .error e
  | .ok (low, p1) =>
    match readFixed32 data p1 with
    | .error e => .error e
    | .ok (high, p2) => .ok (.lowHigh low high, p2)

/-- `isValidUtf8String` — printability heuristic over the UTF-16 code
units of the decoded string; the ratio comparison `> 0.8` is modelled
rationally as `5 * printable > 4 * total` (exact for all inputs whose
unit count stays well below 2^53). -/
def printableUnit (u : Nat) : Bool :=
  (0x20 ≤ u && u ≤ 0x7e) || u = 0x09 || u = 0x0a || u = 0x0d || 0x80 ≤ u

def isValidUtf8String (s : String) : Bool :=
  let units := utf16Units s.toList
  if units.length = 0 then true
  else 4 * units.length < 5 * (units.filter printableUnit).length

/-- `ProtobufReader.tryDecodeAsString` — strict `TextDecoder` plus the
printability heuristic; `null` when either rejects. -/
def tryDecodeAsString (d : List Nat) : Option String :=
  match jsTextDecodeFatal d with
  | none => none
  | some s => if isValidUtf8String s then some s else none

/-- `formatBytes` — zero-padded lowercase hex for short buffers. -/
def formatBytes (d : List Nat) : String :=
  if d.length ≤ 32 then
    String.intercalate " " (d.map (fun b =>
      String.mk (List.replicate (2 - (jsHexString b).length) '0') ++ jsHexString b))
  else "<" ++ toString d.length ++ " bytes>"

/-- Repeated-field accumulation of `readMessage`
(`result[fieldNumber]` array wrap + push). -/
def pdSetAssoc (obj : List (Nat × Value)) (k : Nat) (v : Value) :
    List (Nat × Value) :=
  if obj.any (·.1 == k) then obj.map (fun p => if p.1 == k then (k, v) else p)
  else obj ++ [(k, v)]

def pdAccumulate (obj : List (Nat × Value)) (k : Nat) (v : Value) :
    List (Nat × Value) :=
  match (obj.find? (·.1 == k)).map (·.2) with
  | none => pdSetAssoc obj k v
  | some old =>
    let base := match old with | .arr l => l | o => [o]
    pdSetAssoc obj k (.arr (base ++ [v]))

/-- `ProtobufReader.readMessage` tag loop with `readField`,
`readLengthDelimited` and `tryDecodeAsMessage` inlined (they are
mutually recursive through nested-message decoding; fuel is spent once
per loop iteration and once per nesting level).  A `try/catch` inside
the loop turns any reader exception into a `break`, so `readMessage`
itself never fails; it returns the object decoded so far together with
the final cursor position. -/
def readMessageGo : Nat → List Nat → Nat → List (Nat × Value) →
    Option (List (Nat × Value) × Nat)
  | 0, _, _, _ => none
  | fuel + 1, data, pos, result =>
    if pos < data.length then
      match readVarint data pos with
      | .error (_, p) => some (result, p)
      | .ok (tag, p1) =>
        if tag = 0 then some (result, p1)
        else
          let fieldNumber := tag >>> 3
          let wireType := tag &&& 0x7
          -- `readField(wireType)`
          let fieldRead : Option (Except (String × Nat) (Value × Nat)) :=
            if wireType = 0 then
              some ((readVarint data p1).map (fun vp => (.num vp.1, vp.2)))
            else if wireType = 1 then some (readFixed64 data p1)
            else if wireType = 2 then
              -- `readLengthDelimited`
              match readVarint data p1 with
              | .error e => some (.error e)
              | .ok (length, p2) =>
                if p2 + length > data.length then
                  some (.error ("Unexpected end of buffer", p2))
                else
                  let d := (data.drop p2).take length
                  let p3 := p2 + length
                  match tryDecodeAsString d with
                  | some s => some (.ok (.str s, p3))
                  | none =>
                    -- `tryDecodeAsMessage`
                    if d.length < 2 then some (.ok (.str (formatBytes d), p3))
                    else
                      match readMessageGo fuel d 0 [] with
                      | none => none
                      | some (sub, subPos) =>
                        if 0 < sub.length && subPos = d.length then
                          some (.ok (.obj sub, p3))
                        else some (.ok (.str (formatBytes d), p3))
            else if wireType = 5 then
              some ((readFixed32 data p1).map (fun vp => (.num vp.1, vp.2)))
            else if wireType = 3 || wireType = 4 then
              some (.error ("Groups are deprecated and not supported", p1))
            else
              some (.error ("Unknown wire type: " ++ toString wireType, p1))
          match fieldRead with
          | none => none
          | some (.error (_, p2)) => some (result, p2)
          | some (.ok (v, p2)) =>
            readMessageGo fuel data p2 (pdAccumulate result fieldNumber v)
    else some (result, pos)

/-- `ProtobufReader.readMessage` on a whole buffer. -/
def readMessage (fuel : Nat) (data : List Nat) :
    Option (List (Nat × Value) × Nat) :=
  readMessageGo fuel data 0 []

/-- `ProtobufReader.tryDecodeAsMessage` as a standalone entry point
(same computation as the inlined block above). -/
def tryDecodeAsMessage (fuel : Nat) (d : List Nat) :
    Option (Option (List (Nat × Value))) :=
  if d.length < 2 then some none
  else
    match readMessageGo fuel d 0 [] with
    | none => none
    | some (sub, subPos) =>
      if 0 < sub.length && subPos = d.length then some (some sub)
      else some none

/-- `ProtobufReader.readLengthDelimited` as a standalone entry point. -/
def readLengthDelimited (fuel : Nat) (data : List Nat) (pos : Nat) :
    Option (Except (String × Nat) (Value × Nat)) :=
  match readVarint data pos with
  | .error e => some (.error e)
  | .ok (length, p2) =>
    if p2 + length > data.length then
      some (.error ("Unexpected end of buffer", p2))
    else
      let d := (data.drop p2).take length
      let p3 := p2 + length
      match tryDecodeAsString d with
      | some s => some (.ok (.str s, p3))
      | none =>
        match tryDecodeAsMessage fuel d with
        | none => none
        | some (some sub) => some (.ok (.obj sub, p3))
        | some none => some (.ok (.str (formatBytes d), p3))

/-- A parsed gRPC-Web frame as pushed by `decodeGrpcWebFrame`. -/
structure Frame where
  compressed : Bool
  isTrailer : Bool
  length : Nat
  payload : List Nat
deriving Repr, DecidableEq

/-- `decodeGrpcWebFrame` main loop (the `Uint8Array` input path; the
base64-string normalization in front of it is not modelled).  The
length word is read as a JS `Int32`; negative or overlong lengths stop
the loop.  Note the flag tests: `compressed === 1` and
`isTrailer = (compressed === 0x80)` are exact equality tests on the
whole flags byte. -/
def decodeGrpcWebFrameLoop : Nat → List Nat → Nat → List Frame → Option (List Frame)
  | 0, _, _, _ => none
  | fuel + 1, buffer, offset, frames =>
    if offset < buffer.length then
      if offset + 5 > buffer.length then some frames
      else
        let compressed := buffer.getD offset 0
        let lengthI : Int := toInt32 (buffer.getD (offset + 1) 0 * 16777216 +
          buffer.getD (offset + 2) 0 * 65536 +
          buffer.getD (offset + 3) 0 * 256 + buffer.getD (offset + 4) 0)
        let offset' := offset + 5
        if lengthI > (buffer.length : Int) - (offset' : Int) ∨ lengthI < 0 then
          some frames
        else
          let lengthN := lengthI.toNat
          let payload := (buffer.drop offset').take lengthN
          decodeGrpcWebFrameLoop fuel buffer (offset' + lengthN)
            (frames ++ [{ compressed := compressed = 1,
                          isTrailer := compressed = 0x80,
                          length := lengthN, payload := payload }])
    else some frames

def decodeGrpcWebFrame (fuel : Nat) (buffer : List Nat) : Option (List Frame) :=
  decodeGrpcWebFrameLoop fuel buffer 0 []

end PD

/-! ## descriptor-parser.js and reflection-client.js — hand-rolled varint -/

namespace DP

/-- `readVarint(data, pos)` of descriptor-parser.js: 32-bit JS
arithmetic (shift count masked mod 32 by `<<`), no length or EOF check;
at end-of-buffer the value accumulated so far is returned.  The final
`result >>> 0` makes the returned value the unsigned 32-bit view. -/
def readVarintAux : List Nat → Nat → Nat → Nat → Nat × Nat
  | [], pos, result, _ => (result, pos)
  | b :: bs, pos, result, shift =>
    let result' := (result ||| ((b &&& 0x7f) <<< (shift % 32))) % 4294967296
    if b &&& 0x80 = 0 then (result', pos + 1)
    else readVarintAux bs (pos + 1) result' (shift + 7)

def readVarint (data : List Nat) (pos : Nat) : Nat × Nat :=
  readVarintAux (data.drop pos) pos 0 0

end DP

namespace RC

/-- `ReflectionClient.readVarint` — byte-for-byte the same
implementation as descriptor-parser.js `readVarint`. -/
def readVarint (data : List Nat) (pos : Nat) : Nat × Nat :=
  DP.readVarint data pos

end RC

/-! ## stores/network.js and the unnamed network store — framing pipelines -/

/-- JS `buffer[i]` for a possibly negative/overlong index, coerced the
way the source consumes it (`undefined` becomes 0 under `&`, `<<` and
`|` arithmetic). -/
def byteAt (l : List Nat) (i : Int) : Nat :=
  if i < 0 then 0 else l.getD i.toNat 0

/-- `Uint8Array.prototype.slice(start, end)` — negative indices are
relative to the end, both are clamped. -/
def jsSlice (l : List Nat) (s e : Int) : List Nat :=
  let len : Int := l.length
  let rel : Int → Nat := fun k => if k < 0 then (len + k).toNat else min k.toNat l.length
  let s' := rel s
  let e' := rel e
  (l.drop s').take (e' - s')

namespace NET

/-- The signed 32-bit length word `(b1<<24)|(b2<<16)|(b3<<8)|b4`
read at `pos+1`. -/
def frameLength (buffer : List Nat) (pos : Int) : Int :=
  toInt32 (byteAt buffer (pos + 1) * 16777216 + byteAt buffer (pos + 2) * 65536 +
    byteAt buffer (pos + 3) * 256 + byteAt buffer (pos + 4))

/-- `extractGrpcFrames` main loop (stores/network.js).  `inflate`
abstracts the browser-builtin `decompressGzip` (a pure function of the
frame payload; on failure the JS helper returns its input unchanged).
Data frames (bit 7 of the flags clear) are collected; a data frame with
bit 0 set and a positive length is inflated individually.  The cursor
is a JS `Number` and can move backwards on negative parsed lengths,
hence `Int` and fuel. -/
def extractLoop (inflate : List Nat → List Nat) :
    Nat → List Nat → Int → List (List Nat) → Bool → Option (Option (List Nat))
  | 0, _, _, _, _ => none
  | fuel + 1, buffer, pos, chunks, hasFraming =>
    if pos + 5 ≤ (buffer.length : Int) then
      let flags := byteAt buffer pos
      let lengthI := frameLength buffer pos
      let start := pos + 5
      let stop := start + lengthI
      if stop > (buffer.length : Int) then
        -- `break` with hasFraming already set this iteration
        some (some chunks.flatten)
      else
        let isCompressed := flags &&& 0x01 = 0x01
        let isData := flags &&& 0x80 = 0
        let chunks' :=
          if isData then
            let chunk := jsSlice buffer start stop
            let chunk := if isCompressed && decide (0 < lengthI) then inflate chunk
                         else chunk
            chunks ++ [chunk]
          else chunks
        extractLoop inflate fuel buffer stop chunks' true
    else
      if hasFraming then some (some chunks.flatten) else some none

/-- `extractGrpcFrames(buffer)`; `some none` models `return null`
(no framing header found at all). -/
def extractGrpcFrames (inflate : List Nat → List Nat) (fuel : Nat)
    (buffer : List Nat) : Option (Option (List Nat)) :=
  extractLoop inflate fuel buffer 0 [] false

end NET

namespace P3

/-- Length-prefixed framing loop of `extractPayload` in the unnamed
network store (src/unnamed/part_003).  Note the data-frame test is
`(flags & 0x01) === 0`: bit 0 — not bit 7 — decides inclusion, and no
per-frame decompression is performed. -/
def extractLoop : Nat → List Nat → Int → List (List Nat) → Option (List (List Nat))
  | 0, _, _, _ => none
  | fuel + 1, buffer, pos, chunks =>
    if pos + 5 ≤ (buffer.length : Int) then
      let flags := byteAt buffer pos
      let lengthI := NET.frameLength buffer pos
      let start := pos + 5
      let stop := start + lengthI
      if stop > (buffer.length : Int) then some chunks
      else
        let isData := flags &&& 0x01 = 0
        let chunks' := if isData then chunks ++ [jsSlice buffer start stop] else chunks
        extractLoop fuel buffer stop chunks'
    else some chunks

/-- Framing stage of `extractPayload`: combined data chunks, or the
whole buffer unchanged when no chunk was collected. -/
def extractPayloadFraming (fuel : Nat) (buffer : List Nat) : Option (List Nat) :=
  (extractLoop fuel buffer 0 []).map
    (fun chunks => if 0 < chunks.length then chunks.flatten else buffer)

end P3

/-! ## schema-manager.js — `getMessageByName` -/

namespace SM

/-- A registered message definition; `name` is the simple name the
source compares against, `tag` stands for the rest of the object and
makes distinct definitions distinguishable. -/
structure MsgDef where
  name : String
  tag : Nat := 0
deriving Repr, DecidableEq

/-- A schema file: full message name → definition, in insertion order. -/
structure Schema where
  messages : List (String × MsgDef) := []
deriving Repr, DecidableEq

/-- `typeName.replace(/^\.+/, "").replace(/\.+$/, "").toLowerCase()`. -/
def normalizeName (s : String) : String :=
  jsToLower (String.mk (((s.toList.dropWhile (· = '.')).reverse.dropWhile (· = '.')).reverse))

/-- `SchemaManager.getMessageByName`: four phases — normalized exact
match, suffix match, inverse suffix match, simple-name match.  The
fourth phase returns the FIRST definition whose simple name matches,
with no uniqueness requirement. -/
def getMessageByName (schemas : List (String × Schema)) :
    Option String → Option MsgDef
  | none => none
  | some typeName =>
    if typeName = "" then none
    else
      let cleanSearchName := normalizeName typeName
      let shortSearchName := (jsSplitDot cleanSearchName).getLastD ""
      let allMsgDefs := schemas.flatMap
        (fun fs => fs.2.messages.map (fun kv => (normalizeName kv.1, kv.2)))
      match (allMsgDefs.find? (fun m => m.1 == cleanSearchName)).map (·.2) with
      | some d => some d
      | none =>
        match (allMsgDefs.find?
            (fun m => jsEndsWith m.1 ("." ++ cleanSearchName))).map (·.2) with
        | some d => some d
        | none =>
          match (allMsgDefs.find?
              (fun m => jsEndsWith cleanSearchName ("." ++ m.1))).map (·.2) with
          | some d => some d
          | none =>
            (allMsgDefs.find? (fun m => jsToLower m.2.name == shortSearchName)).map (·.2)

end SM

/-! ## stores/schema.js — per-origin reflection state machine

`tryAutoReflection`/`performReflection` of stores/schema.js (the
byte-identical logic also appears in src/unnamed/part_004).  The model
is the sequential execution of complete calls; `localHit` abstracts the
`localProtoRegistered && serviceMap.size > 0 && findMethod(path)`
short-circuit, and `ROutcome` abstracts what
`reflectionClient.fetchFromServer` does (non-null result, null result,
or thrown exception). -/

namespace SS

inductive ROutcome where
  | ok : ROutcome
  | nullResult : ROutcome
  | thrown : ROutcome
deriving Repr, DecidableEq

structure St where
  reflectedServers : List String := []
  inFlightKeys : List String := []
deriving Repr, DecidableEq

def jsSetAdd (l : List String) (x : String) : List String :=
  if x ∈ l then l else l ++ [x]

/-- `performReflection(origin)`: on success, null result AND exception
alike the origin is added to `reflectedServers`; the returned boolean
is `true` only for a non-null fetch result. -/
def performReflection (st : St) (origin : String) (out : ROutcome) : St × Bool :=
  ({ st with reflectedServers := jsSetAdd st.reflectedServers origin },
   out = ROutcome.ok)

/-- `tryAutoReflection(url)` for a URL with the given origin.  Returns
(new state, returned boolean, whether a reflection fetch was issued). -/
def tryAutoReflection (st : St) (origin : String) (localHit : Bool)
    (out : ROutcome) : St × Bool × Bool :=
  if localHit then (st, false, false)
  else if origin ∈ st.reflectedServers then (st, false, false)
  else if origin ∈ st.inFlightKeys then
    (st, origin ∈ st.reflectedServers, false)
  else
    let st1 := { st with inFlightKeys := jsSetAdd st.inFlightKeys origin }
    let (st2, success) := performReflection st1 origin out
    let st3 := { st2 with inFlightKeys := st2.inFlightKeys.filter (· ≠ origin) }
    (st3, success, true)

/-- One record-processing call that may trigger auto-reflection. -/
structure Call where
  origin : String
  localHit : Bool
  out : ROutcome
deriving Repr, DecidableEq

/-- Run a sequence of record-processing calls, logging for each one
whether it issued a reflection fetch. -/
def runCalls : St → List Call → St × List (String × Bool)
  | st, [] => (st, [])
  | st, c :: rest =>
    let r := tryAutoReflection st c.origin c.localHit c.out
    let rec' := runCalls r.1 rest
    (rec'.1, (c.origin, r.2.2) :: rec'.2)

end SS

/-! ## proto-engine.js — second (@bufbuild-based) engine -/

namespace PE2

/-- `_convertValue` of the @bufbuild-based `ProtoEngine`
(`_messageToObject` helper): a BigInt within the JS safe-integer range
±(2^53 − 1) becomes a plain `Number`, a larger magnitude becomes its
decimal string; any other value passes through unchanged. -/
def _convertValue (v : PE.Value) : PE.Value :=
  match v with
  | .big n =>
    if n ≤ 9007199254740991 ∧ -9007199254740991 ≤ n then .num n
    else .str (toString n)
  | v => v

end PE2

/-! ## Fixtures and claim-side definitions

Concrete registered schemas and generator/spec-side functions used to
state the claims.  The `spec…`/`claim…`/`dataFramePayload`/`aliasFold`
definitions follow the words of the specification (not the source) and
are compared against the embedded code. -/

/-- Last dot-separated segment of a dotted name. -/
def lastSeg (s : String) : String := (jsSplitDot s).getLastD ""

/-- Registered descriptor `test.Simple \x7b id:int32=1, name:string=2 \x7d`. -/
def testEngine : PE.Engine :=
  [("test.Simple", { fields := [
      { name := "id", number := 1, type := 5 },
      { name := "name", number := 2, type := 9 }] })]

/-- Registered descriptor with a single packed-capable DOUBLE field. -/
def packEngine : PE.Engine :=
  [("test.P", { fields := [ { name := "vals", number := 1, type := 1 } ] })]

/-- Registered descriptor with a single INT64 field. -/
def engine64 : PE.Engine :=
  [("test.S64", { fields := [ { name := "v", number := 1, type := 3 } ] })]

/-- Two registered messages whose full names share the last segment
`Foo`. -/
def smSchemas : List (String × SM.Schema) :=
  [("f1", { messages := [
      ("a.Foo", { name := "Foo", tag := 0 }),
      ("b.Foo", { name := "Foo", tag := 1 })] })]

/-- Wire bytes for `n` occurrences of varint field number 1
(each value a single varint byte). -/
def singularBytes (vs : List Nat) : List Nat :=
  (vs.map (fun v => [0x08, v])).flatten

/-- A gRPC length-prefixed frame `[flags][len:u32 BE][payload]`
(test-side generator). -/
def encodeFrame (fl : Nat) (p : List Nat) : List Nat :=
  fl :: (be32 p.length ++ p)

def encodeFrames (frames : List (Nat × List Nat)) : List Nat :=
  frames.flatMap (fun f => encodeFrame f.1 f.2)

/-- Claim-side description of what a frame contributes to the
concatenated payloads: a frame with bit 7 clear contributes its payload
(inflated when bit 0 is set and the payload is non-empty), a frame with
bit 7 set contributes nothing. -/
def dataFramePayload (inflate : List Nat → List Nat) (f : Nat × List Nat) :
    List Nat :=
  if f.1 &&& 0x80 = 0 then
    (if f.1 &&& 0x01 = 0x01 ∧ f.2 ≠ [] then inflate f.2 else f.2)
  else []

/-- Claim-side reading of "bits at positions 32 and above alias into
low bits": move every set bit of `n` to its position mod 32. -/
def aliasFold (n : Nat) : Nat :=
  (List.range 64).foldl
    (fun a p => if n.testBit p then a ||| (1 <<< (p % 32)) else a) 0

/-- Claim-side hexadecimal rendering of raw bytes: two-digit
zero-padded lowercase hex, space separated. -/
def specHexOfBytes (d : List Nat) : String :=
  String.intercalate " " (d.map (fun b =>
    String.mk (List.replicate (2 - (jsHexString b).length) '0') ++ jsHexString b))

/-! ## General bit-arithmetic lemmas -/

theorem msbAnd {b : Nat} (h1 : 128 ≤ b) (h2 : b < 256) : b &&& 128 = 128 := by
  have ht : b.testBit 7 = true := by
    rw [Nat.testBit_to_div_mod]
    simp only [decide_eq_true_eq]
    omega
  have := Nat.and_two_pow b 7
  norm_num [ht] at this
  exact this

theorem low7And (b : Nat) : b &&& 127 = b % 128 := by
  have := Nat.and_pow_two_sub_one_eq_mod b 7
  norm_num at this
  exact this

theorem clearMsb {b : Nat} (h : b < 128) : b &&& 128 = 0 := by
  have ht : b.testBit 7 = false := Nat.testBit_lt_two_pow (by omega)
  have := Nat.and_two_pow b 7
  norm_num [ht] at this
  exact this

theorem lorDisjoint {acc x s : Nat} (h : acc < 2 ^ s) :
    acc ||| (x <<< s) = 2 ^ s * x + acc := by
  rw [Nat.lor_comm, Nat.shiftLeft_eq, Nat.mul_comm x (2 ^ s),
    ← Nat.mul_add_lt_is_or h x]

/-! ## Behaviour of the three varint readers -/

/-- On a byte list whose every byte has the continuation bit set,
`ProtobufReader.readVarint` always signals an error ("Unexpected end of
buffer" or "Varint too long"). -/
theorem pdAuxError (bs : List Nat) :
    ∀ pos r s, (∀ b ∈ bs, 128 ≤ b ∧ b < 256) →
      ∃ e, PD.readVarintAux bs pos r s = .error e := by
  induction bs with
  | nil => exact fun pos r s _ => ⟨_, rfl⟩
  | cons b bs ih =>
    intro pos r s h
    obtain ⟨h1, h2⟩ := h b (List.mem_cons_self b bs)
    rw [PD.readVarintAux, msbAnd h1 h2, if_neg (by norm_num : ¬(128 : Nat) = 0)]
    by_cases hs : s + 7 > 35
    · rw [if_pos hs]; exact ⟨_, rfl⟩
    · rw [if_neg hs]; exact ih _ _ _ (fun x hx => h x (List.mem_cons_of_mem _ hx))

/-- `ProtoReader.readVarint` consumes an all-continuation tail entirely
and returns a value — it never signals an error. -/
theorem peAuxTotal (bs : List Nat) :
    ∀ val s, (∀ b ∈ bs, 128 ≤ b ∧ b < 256) →
      ∃ v, PE.readVarintAux bs val s = (v, bs.length) := by
  induction bs with
  | nil => exact fun val s _ => ⟨val, rfl⟩
  | cons b bs ih =>
    intro val s h
    obtain ⟨h1, h2⟩ := h b (List.mem_cons_self b bs)
    rw [PE.readVarintAux, msbAnd h1 h2]
    obtain ⟨v, hv⟩ := ih (val ||| (b &&& 127) <<< s) (s + 7)
      (fun x hx => h x (List.mem_cons_of_mem _ hx))
    refine ⟨v, ?_⟩
    rw [if_neg (by norm_num : ¬(128 : Nat) = 0), hv]
    simp [List.length_cons]

/-- The descriptor-parser `readVarint` likewise consumes an
all-continuation tail entirely and returns a value. -/
theorem dpAuxTotal (bs : List Nat) :
    ∀ pos r s, (∀ b ∈ bs, 128 ≤ b ∧ b < 256) →
      ∃ v, DP.readVarintAux bs pos r s = (v, pos + bs.length) := by
  induction bs with
  | nil => exact fun pos r s _ => ⟨r, by simp [DP.readVarintAux]⟩
  | cons b bs ih =>
    intro pos r s h
    obtain ⟨h1, h2⟩ := h b (List.mem_cons_self b bs)
    rw [DP.readVarintAux, msbAnd h1 h2, if_neg (by norm_num : ¬(128 : Nat) = 0)]
    obtain ⟨v, hv⟩ := ih (pos + 1) _ (s + 7)
      (fun x hx => h x (List.mem_cons_of_mem _ hx))
    refine ⟨v, ?_⟩
    rw [hv]
    simp [List.length_cons]
    omega

/-- The descriptor-parser `readVarint` decodes a canonical encoding
exactly whenever the accumulated bits stay below bit 31. -/
theorem dpAuxEncode (n : Nat) :
    ∀ pos acc shift, shift % 7 = 0 → shift ≤ 28 → n < 2 ^ (31 - shift) →
      acc < 2 ^ shift →
      DP.readVarintAux (varintEncode n) pos acc shift =
        (2 ^ shift * n + acc, pos + (varintEncode n).length) := by
  induction n using Nat.strong_induction_on with
  | _ n ih =>
    intro pos acc shift h7 hs hn ha
    have hsm : shift % 32 = shift := Nat.mod_eq_of_lt (by omega)
    have hacc28 : acc < 2 ^ 28 :=
      lt_of_lt_of_le ha (Nat.pow_le_pow_right (by norm_num) hs)
    rw [varintEncode]
    by_cases h : n < 128
    · rw [dif_pos h]
      rw [DP.readVarintAux, clearMsb h, if_pos rfl, hsm, low7And,
        Nat.mod_eq_of_lt h]
      have h31 : 2 ^ shift * n < 2 ^ 31 := by
        calc 2 ^ shift * n < 2 ^ shift * 2 ^ (31 - shift) :=
              mul_lt_mul_of_pos_left hn (Nat.two_pow_pos _)
          _ = 2 ^ 31 := by rw [← Nat.pow_add]; congr 1; omega
      have hfit : 2 ^ shift * n + acc < 4294967296 := by
        have : (2 : Nat) ^ 31 + 2 ^ 28 < 4294967296 := by norm_num
        omega
      rw [lorDisjoint ha, Nat.mod_eq_of_lt hfit]
      simp
    · rw [dif_neg h]
      push_neg at h
      have hb1 : 128 ≤ n % 128 + 128 := by omega
      have hb2 : n % 128 + 128 < 256 := by
        have := Nat.mod_lt n (show 0 < 128 by norm_num)
        omega
      have hshift21 : shift ≤ 21 := by
        by_contra hc
        push_neg at hc
        have h28 : shift = 28 := by omega
        rw [h28] at hn
        norm_num at hn
        omega
      have hmod : (n % 128 + 128) % 128 = n % 128 := by omega
      have haccStep : 2 ^ shift * (n % 128) + acc < 2 ^ (shift + 7) := by
        have hlt : n % 128 < 128 := Nat.mod_lt n (by norm_num)
        calc 2 ^ shift * (n % 128) + acc
            < 2 ^ shift * (n % 128) + 2 ^ shift := by omega
          _ = 2 ^ shift * (n % 128 + 1) := by ring
          _ ≤ 2 ^ shift * 128 := by gcongr; omega
          _ = 2 ^ (shift + 7) := by rw [Nat.pow_add]
      have haccFit : 2 ^ shift * (n % 128) + acc < 4294967296 := by
        have hle : (2 : Nat) ^ (shift + 7) ≤ 2 ^ 28 :=
          Nat.pow_le_pow_right (by norm_num) (by omega)
        have : (2 : Nat) ^ 28 < 4294967296 := by norm_num
        omega
      rw [DP.readVarintAux, msbAnd hb1 hb2,
        if_neg (by norm_num : ¬(128 : Nat) = 0), hsm, low7And, hmod,
        lorDisjoint ha, Nat.mod_eq_of_lt haccFit]
      have hrec := ih (n / 128) (Nat.div_lt_self (by omega) (by norm_num))
        (pos + 1) (2 ^ shift * (n % 128) + acc) (shift + 7)
        (by omega) (by omega)
        (by
          have heq : 2 ^ (31 - (shift + 7)) * 128 = 2 ^ (31 - shift) := by
            rw [show (128 : Nat) = 2 ^ 7 by norm_num, ← Nat.pow_add]
            congr 1
            omega
          have hlt : n < 2 ^ (31 - (shift + 7)) * 128 := by rw [heq]; exact hn
          omega)
        haccStep
      rw [hrec]
      have hd : 128 * (n / 128) + n % 128 = n := by omega
      have hval : 2 ^ (shift + 7) * (n / 128) + (2 ^ shift * (n % 128) + acc) =
          2 ^ shift * n + acc := by
        calc 2 ^ (shift + 7) * (n / 128) + (2 ^ shift * (n % 128) + acc)
            = 2 ^ shift * (128 * (n / 128) + n % 128) + acc := by
              rw [Nat.pow_add]; ring
          _ = 2 ^ shift * n + acc := by rw [hd]
      rw [hval]
      simp only [List.length_cons]
      congr 1
      omega

/-- The descriptor-parser `readVarint` result is always below 2^32. -/
theorem dpAuxLt (bs : List Nat) :
    ∀ pos r s, r < 4294967296 → (DP.readVarintAux bs pos r s).1 < 4294967296 := by
  induction bs with
  | nil => intro pos r s h; simpa [DP.readVarintAux] using h
  | cons b bs ih =>
    intro pos r s h
    rw [DP.readVarintAux]
    by_cases hb : b &&& 128 = 0
    · rw [if_pos hb]
      exact Nat.mod_lt _ (by norm_num)
    · rw [if_neg hb]
      exact ih _ _ _ (Nat.mod_lt _ (by norm_num))

/-! ## Claim C1 -/

/-- The packed-field inner loop of `_decode` makes no progress when a
fixed-width element read hits end-of-data: `readDouble` returns 0
without advancing, so the loop never terminates, whatever the fuel. -/
theorem packedLoopStuck (eng : PE.Engine) (acc : List PE.Value) :
    ∀ fuel, PE.packedLoop eng ⟨"vals", 1, 1, none⟩ fuel [1, 2, 3, 4] acc = none := by
  intro fuel
  induction fuel generalizing acc with
  | zero => rfl
  | succ n ih => simpa [PE.packedLoop, PE.readFieldValue, PE.readDouble] using ih _

/-- C1: the claim says `decode(type_name, bytes)` always returns a value
tree.  The code does not: decoding the registered type `test.P`
(a single packed-capable DOUBLE field) against the bytes
`0A 04 01 02 03 04` (field 1, length-delimited, four payload bytes)
makes the packed-element loop spin forever, because `readDouble` at
end-of-data returns 0 without advancing the cursor.  In the fuel model
the decode returns `none` for every fuel, i.e. the JS loop never
terminates and `decodeMessage` never returns. -/
theorem C1_packed_decode_diverges : ∀ fuel,
    PE.decodeMessage packEngine fuel (some "test.P") [0x0A, 0x04, 1, 2, 3, 4] = none := by
  intro fuel
  match fuel with
  | 0 => rfl
  | fuel + 1 =>
    have h4 : (4 : Nat) &&& 127 = 4 := by decide
    simp +decide [PE.decodeMessage, PE.decodeLoop, PE.readVarint, PE.readVarintAux,
      PE.readBytes, PE.findMessage, PE.stripDots, PE.fieldLookup, PE.isPackableType,
      packEngine, h4, packedLoopStuck]

/-! ## Claim C3 -/

/-- C3: the claim says every wire-reader primitive fails with
`Truncated` at end-of-buffer mid-value and with `VarintOverflow` only
for varints longer than 10 bytes.  The code does not:
`ProtoReader.readVarint` (proto-engine.js) returns the partial value 0
normally on the truncated input `80`, `ProtoReader.readFixed32` returns
0 without any error on a 3-byte buffer, the descriptor-parser
`readVarint` also returns `(0, 1)` on `80`, and
`ProtobufReader.readVarint` (protobuf-decoder.js) throws
"Varint too long" already for a complete 7-byte varint, which is not
longer than 10 bytes. -/
theorem C3_wire_reader_errors_counterexample :
    PE.readVarint [0x80] = (0, 1) ∧
    PE.readFixed32 [1, 2, 3] = (0, 0) ∧
    DP.readVarint [0x80] 0 = (0, 1) ∧
    PD.readVarint [0x80, 0x80, 0x80, 0x80, 0x80, 0x80, 0x01] 0 =
      .error ("Varint too long", 6) := ⟨rfl, rfl, rfl, rfl⟩

/-- C3 (amended): only `ProtobufReader` (protobuf-decoder.js) signals
errors — it throws on every buffer whose remaining bytes all carry the
continuation bit (either "Unexpected end of buffer" or, from the 7th
byte of a varint on, "Varint too long"), and it accepts single-byte
varints.  `ProtoReader.readVarint` (proto-engine.js) and the
`readVarint` shared by descriptor-parser.js and reflection-client.js
never signal an error: they consume the all-continuation tail entirely
and return the value accumulated so far, and `ProtoReader.readFixed32`
returns 0 without advancing when fewer than four bytes remain. -/
theorem C3_wire_reader_errors_amended :
    (∀ data pos, (∀ b ∈ data.drop pos, 128 ≤ b ∧ b < 256) →
      ∃ e, PD.readVarint data pos = Except.error e) ∧
    (∀ bs : List Nat, (∀ b ∈ bs, 128 ≤ b ∧ b < 256) →
      ∃ v, PE.readVarint bs = (v, bs.length)) ∧
    (∀ data pos, (∀ b ∈ data.drop pos, 128 ≤ b ∧ b < 256) →
      ∃ v, DP.readVarint data pos = (v, pos + (data.drop pos).length)) ∧
    (∀ rem : List Nat, rem.length < 4 → PE.readFixed32 rem = (0, 0)) ∧
    PD.readVarint [0x80, 0x80, 0x80, 0x80, 0x80, 0x80, 0x01] 0 =
      .error ("Varint too long", 6) ∧
    (∀ n, n < 128 → PD.readVarint [n] 0 = .ok (n, 1)) := by
  refine ⟨fun data pos h => pdAuxError _ pos 0 0 h,
    fun bs h => peAuxTotal bs 0 0 h,
    fun data pos h => dpAuxTotal _ pos 0 0 h,
    fun rem h => by simp [PE.readFixed32, h], rfl, fun n h => ?_⟩
  show PD.readVarintAux (List.drop 0 [n]) 0 0 0 = .ok (n, 1)
  rw [List.drop, PD.readVarintAux, clearMsb h, if_pos rfl]
  rw [low7And]
  norm_num [Nat.mod_eq_of_lt h, Nat.mod_eq_of_lt (show n < 4294967296 by omega)]

theorem C3_wire_reader_errors_witness :
    (∃ e, PD.readVarint [0x80, 0xFF] 0 = Except.error e) ∧
    (∃ v, PE.readVarint [0x81, 0x82] = (v, 2)) ∧
    (∃ v, DP.readVarint [0x90] 0 = (v, 1)) ∧
    PE.readFixed32 [7] = (0, 0) ∧
    PD.readVarint [5] 0 = .ok (5, 1) :=
  ⟨C3_wire_reader_errors_amended.1 [0x80, 0xFF] 0 (by decide),
   C3_wire_reader_errors_amended.2.1 [0x81, 0x82] (by decide),
   C3_wire_reader_errors_amended.2.2.1 [0x90] 0 (by decide),
   C3_wire_reader_errors_amended.2.2.2.1 [7] (by decide),
   C3_wire_reader_errors_amended.2.2.2.2.2 5 (by decide)⟩

/-! ## Claim C9 -/

/-- C9: decoding `08 2A 12 04 74 65 73 74` against the registered
descriptor `test.Simple \x7b id:int32=1, name:string=2 \x7d` yields exactly
the tree with `id` bound to the integer 42 (a JS BigInt, because the
int32 branch of `readFieldValue` returns the raw BigInt varint) and
`name` bound to the string "test". -/
theorem C9_unary_varint_string_scenario :
    PE.decodeMessage testEngine 9 (some "test.Simple")
      [0x08, 0x2A, 0x12, 0x04, 0x74, 0x65, 0x73, 0x74] =
    some (.obj [("id", .big 42), ("name", .str "test")]) := rfl

/-! ## Claim C10 -/

/-- C10: the claim's parenthetical "bits at positions 32 and above
alias into low bits" is wrong, and so is plain reduction mod 2^32.
The five-byte varint encoding 2^32 (whose set bit sits at position 32)
decodes to 0, not to the alias prediction 1; the six-byte varint
encoding 2^38 decodes to 64 (the shift count 35 is masked to 3), not to
2^38 mod 2^32 = 0. -/
theorem C10_readVarint32_wrap_counterexample :
    DP.readVarint [0x80, 0x80, 0x80, 0x80, 0x10] 0 = (0, 5) ∧
    PE.readVarint [0x80, 0x80, 0x80, 0x80, 0x10] = (4294967296, 5) ∧
    aliasFold 4294967296 = 1 ∧ (0 : Nat) ≠ 1 ∧
    DP.readVarint [0x80, 0x80, 0x80, 0x80, 0x80, 0x08] 0 = (64, 6) ∧
    PE.readVarint [0x80, 0x80, 0x80, 0x80, 0x80, 0x08] = (274877906944, 6) ∧
    274877906944 % 4294967296 = 0 ∧ (64 : Nat) ≠ 0 := by
  refine ⟨rfl, rfl, by decide, by decide, rfl, rfl, by norm_num, by norm_num⟩

/-- C10 (amended): the hand-rolled `readVarint` of descriptor-parser.js
and reflection-client.js (byte-identical implementations) always
returns a non-negative value below 2^32 and never signals an error;
canonical encodings of values below 2^31 are decoded exactly; longer
encodings are neither rejected nor reduced mod 2^32 — each byte's
payload is shifted by its shift count masked mod 32 and truncated to
32 bits, so the 5th byte's bits above position 31 are dropped
(2^32 decodes to 0) while bytes from the 6th on alias into low
positions (2^38 decodes to 64). -/
theorem C10_readVarint32_wrap_amended :
    (∀ data pos, (DP.readVarint data pos).1 < 4294967296) ∧
    (∀ n, n < 2147483648 →
      DP.readVarint (varintEncode n) 0 = (n, (varintEncode n).length)) ∧
    (∀ data pos, RC.readVarint data pos = DP.readVarint data pos) ∧
    DP.readVarint [0x80, 0x80, 0x80, 0x80, 0x10] 0 = (0, 5) ∧
    DP.readVarint [0x80, 0x80, 0x80, 0x80, 0x80, 0x08] 0 = (64, 6) := by
  refine ⟨fun data pos => dpAuxLt _ pos 0 0 (by norm_num),
    fun n h => ?_, fun _ _ => rfl, rfl, rfl⟩
  show DP.readVarintAux (List.drop 0 (varintEncode n)) 0 0 0 = _
  rw [List.drop_zero]
  have hd := dpAuxEncode n 0 0 0 (by norm_num) (by norm_num)
    (by norm_num; omega) (by norm_num)
  simpa using hd

theorem C10_readVarint32_wrap_witness :
    (DP.readVarint [0xAC, 0x02] 0).1 < 4294967296 ∧
    DP.readVarint (varintEncode 300) 0 = (300, (varintEncode 300).length) :=
  ⟨C10_readVarint32_wrap_amended.1 [0xAC, 0x02] 0,
   C10_readVarint32_wrap_amended.2.1 300 (by norm_num)⟩

/-! ## Claim C7 -/

/-- C7: the claim says a 64-bit integer within the safe range is
represented as an exact native integer.  The legacy engine's
`readFieldValue` does not: decoding `08 2A` against `test.S64`
(`v:int64=1`) yields the STRING "42" for the safe-range value 42,
because every 64-bit case of `readFieldValue` calls `.toString()`
unconditionally. -/
theorem C7_int64_representation_counterexample :
    PE.decodeMessage engine64 3 (some "test.S64") [0x08, 0x2A] =
      some (.obj [("v", .str "42")]) ∧
    PE.Value.str "42" ≠ PE.Value.num 42 ∧
    PE.Value.str "42" ≠ PE.Value.big 42 := by
  refine ⟨rfl, by simp, by simp⟩

/-- C7 (amended): in the @bufbuild-based engine, `_convertValue` turns a
BigInt within ±(2^53 − 1) into an exact `Number` and a BigInt outside
that range into its decimal string, exactly as the claim says; but the
legacy engine's `readFieldValue` renders EVERY 64-bit integer field
(INT64, UINT64, FIXED64, SFIXED64, SINT64) as a decimal string,
regardless of magnitude. -/
theorem C7_int64_representation_amended :
    (∀ n : Int, -9007199254740991 ≤ n → n ≤ 9007199254740991 →
      PE2._convertValue (.big n) = .num n) ∧
    (∀ n : Int, 9007199254740991 < n →
      PE2._convertValue (.big n) = .str (toString n)) ∧
    (∀ n : Int, n < -9007199254740991 →
      PE2._convertValue (.big n) = .str (toString n)) ∧
    (∀ eng f wt rem, f.type = 3 →
      PE.readFieldValue eng f wt rem =
        (.str (toString (PE.readVarint rem).1), (PE.readVarint rem).2)) ∧
    (∀ eng f wt rem, f.type = 4 →
      PE.readFieldValue eng f wt rem =
        (.str (toString (PE.readVarint rem).1), (PE.readVarint rem).2)) ∧
    (∀ eng f wt rem, f.type = 6 →
      PE.readFieldValue eng f wt rem =
        (.str (toString (PE.readFixed64 rem).1), (PE.readFixed64 rem).2)) ∧
    (∀ eng f wt rem, f.type = 16 →
      PE.readFieldValue eng f wt rem =
        (.str (toString (PE.readSFixed64 rem).1), (PE.readSFixed64 rem).2)) ∧
    (∀ eng f wt rem, f.type = 18 →
      PE.readFieldValue eng f wt rem =
        (.str (toString (PE.readSVarint64 rem).1), (PE.readSVarint64 rem).2)) := by
  refine ⟨fun n h1 h2 => by simp [PE2._convertValue, h1, h2],
    fun n h => by simp [PE2._convertValue]; omega,
    fun n h => by simp [PE2._convertValue]; omega,
    fun eng f wt rem h => ?_, fun eng f wt rem h => ?_, fun eng f wt rem h => ?_,
    fun eng f wt rem h => ?_, fun eng f wt rem h => ?_⟩ <;>
  · rcases hrv : PE.readVarint rem with ⟨n, c⟩
    rcases hf64 : PE.readFixed64 rem with ⟨m, d⟩
    rcases hsf : PE.readSFixed64 rem with ⟨q, e⟩
    rcases hsv : PE.readSVarint64 rem with ⟨w, g⟩
    simp +decide [PE.readFieldValue, h, hrv, hf64, hsf, hsv]

theorem C7_int64_representation_witness :
    PE2._convertValue (.big 42) = PE.Value.num 42 ∧
    PE2._convertValue (.big 9007199254740992) =
      PE.Value.str (toString (9007199254740992 : Int)) ∧
    PE2._convertValue (.big (-9007199254740992)) =
      PE.Value.str (toString (-9007199254740992 : Int)) ∧
    PE.readFieldValue [] ⟨"v", 1, 3, none⟩ 0 [0x2A] =
      (.str (toString (PE.readVarint [0x2A]).1), (PE.readVarint [0x2A]).2) :=
  ⟨C7_int64_representation_amended.1 42 (by norm_num) (by norm_num),
   C7_int64_representation_amended.2.1 9007199254740992 (by norm_num),
   C7_int64_representation_amended.2.2.1 (-9007199254740992) (by norm_num),
   C7_int64_representation_amended.2.2.2.1 [] ⟨"v", 1, 3, none⟩ 0 [0x2A] rfl⟩

/-! ## Claim C8 -/

theorem ssSetAddMem (l : List String) (x y : String) (h : y ∈ l) :
    y ∈ SS.jsSetAdd l x := by
  unfold SS.jsSetAdd
  split
  · exact h
  · exact List.mem_append_left _ h

theorem ssSetAddSelf (l : List String) (x : String) : x ∈ SS.jsSetAdd l x := by
  unfold SS.jsSetAdd
  split
  · assumption
  · exact List.mem_append_right _ (List.mem_singleton.mpr rfl)

/-- An origin once recorded in `reflectedServers` is never removed by a
later `tryAutoReflection` call. -/
theorem ssMono (st : SS.St) (o origin : String) (lh : Bool) (out : SS.ROutcome)
    (h : origin ∈ st.reflectedServers) :
    origin ∈ (SS.tryAutoReflection st o lh out).1.reflectedServers := by
  unfold SS.tryAutoReflection SS.performReflection
  split_ifs <;> simp_all [ssSetAddMem]

/-- A call for an origin already in `reflectedServers` issues no fetch. -/
theorem ssNoFetch (st : SS.St) (origin : String) (lh : Bool) (out : SS.ROutcome)
    (h : origin ∈ st.reflectedServers) :
    (SS.tryAutoReflection st origin lh out).2.2 = false := by
  unfold SS.tryAutoReflection
  split_ifs <;> simp_all

/-- C8: whenever `tryAutoReflection` issues a reflection fetch, the
origin ends up in `reflectedServers` regardless of the outcome
(success, null result, or thrown transport error — `performReflection`
records it on every path); and once an origin is in
`reflectedServers`, no later record-processing call in the session
issues another reflection fetch for it. -/
theorem C8_reflection_failure_terminal :
    (∀ st origin localHit out,
      (SS.tryAutoReflection st origin localHit out).2.2 = true →
        origin ∈ (SS.tryAutoReflection st origin localHit out).1.reflectedServers) ∧
    (∀ st calls origin, origin ∈ st.reflectedServers →
      ∀ p ∈ (SS.runCalls st calls).2, p.1 = origin → p.2 = false) := by
  constructor
  · intro st origin lh out h
    unfold SS.tryAutoReflection at h ⊢
    split_ifs at h ⊢
    simp [SS.performReflection, ssSetAddSelf]
  · intro st calls
    induction calls generalizing st with
    | nil => intro origin h p hp; simp [SS.runCalls] at hp
    | cons c rest ih =>
      intro origin h p hp
      rw [SS.runCalls] at hp
      simp only [List.mem_cons] at hp
      rcases hp with hp | hp
      · intro heq
        rw [hp]
        simp only
        have hco : c.origin = origin := by rw [hp] at heq; exact heq
        rw [hco]
        exact ssNoFetch st origin c.localHit c.out h
      · exact ih _ origin (ssMono st c.origin origin c.localHit c.out h) p hp

theorem C8_reflection_failure_terminal_witness :
    (SS.tryAutoReflection {} "O" false SS.ROutcome.thrown).2.2 = true ∧
    "O" ∈ (SS.tryAutoReflection {} "O" false SS.ROutcome.thrown).1.reflectedServers ∧
    ("O", false) ∈
      (SS.runCalls ⟨["O"], []⟩ [⟨"O", false, SS.ROutcome.ok⟩]).2 ∧
    (("O", false) : String × Bool).2 = false :=
  ⟨rfl, C8_reflection_failure_terminal.1 {} "O" false SS.ROutcome.thrown rfl,
   by decide,
   C8_reflection_failure_terminal.2 ⟨["O"], []⟩ [⟨"O", false, SS.ROutcome.ok⟩]
     "O" (by decide) ("O", false) (by decide) rfl⟩

/-! ## Claim C5 -/

/-- A single varint byte below 128 reads as itself. -/
theorem readVarintByte {v : Nat} (h : v < 128) (rest : List Nat) :
    PE.readVarint (v :: rest) = (v, 1) := by
  rw [PE.readVarint, PE.readVarintAux, clearMsb h, if_pos rfl]
  simp [low7And, Nat.mod_eq_of_lt h]

/-- The definition registered for `test.Simple`. -/
def simpleDef : PE.MessageDef :=
  { fields := [
      { name := "id", number := 1, type := 5 },
      { name := "name", number := 2, type := 9 }] }

/-- C5: the claim says a singular field occurring more than once
decodes to exactly the last value on the wire.  The code does not:
`_decode` never consults the field's label, so the singular int32 field
`id` occurring twice (`08 01 08 02`) decodes to the array [1, 2], not
to the last value 2. -/
theorem C5_last_value_counterexample :
    PE.decodeMessage testEngine 9 (some "test.Simple") [0x08, 0x01, 0x08, 0x02] =
      some (.obj [("id", .arr [.big 1, .big 2])]) ∧
    PE.Value.obj [("id", .arr [.big 1, .big 2])] ≠ PE.Value.obj [("id", .big 2)] := by
  refine ⟨rfl, ?_⟩
  simp

/-- Tag loop of `_decode` over `n` occurrences of the singular varint
field number 1: every occurrence is accumulated. -/
theorem decodeLoopSingular (vs : List Nat) : ∀ acc, (∀ v ∈ vs, v < 128) →
    PE.decodeLoop testEngine (vs.length + 1) (some simpleDef) (singularBytes vs) acc =
      some (vs.foldl (fun a (v : Nat) => PE.jsAccumulate a "id" (.big v)) acc,
        2 * vs.length) := by
  induction vs with
  | nil => intro acc _; rfl
  | cons v rest ih =>
    intro acc h
    have hv : v < 128 := h v (List.mem_cons_self v rest)
    have hb : singularBytes (v :: rest) = 8 :: v :: singularBytes rest := by
      simp [singularBytes]
    rw [hb]
    rw [PE.decodeLoop]
    have h8 : PE.readVarint (8 :: v :: singularBytes rest) = (8, 1) :=
      readVarintByte (by norm_num) _
    have hrest := ih (PE.jsAccumulate acc "id" (.big v))
      (fun x hx => h x (List.mem_cons_of_mem _ hx))
    simp only [simpleDef] at hrest
    simp +decide [h8, PE.fieldLookup, simpleDef, PE.isPackableType,
      PE.readFieldValue, readVarintByte hv, hrest]
    omega

/-- Accumulating a further occurrence into an existing array value
appends it in place. -/
theorem foldAccumArr (rest : List Nat) : ∀ l : List PE.Value,
    rest.foldl (fun a (v : Nat) => PE.jsAccumulate a "id" (.big v))
        [("id", PE.Value.arr l)] =
      [("id", PE.Value.arr (l ++ rest.map (fun v : Nat => PE.Value.big v)))] := by
  induction rest with
  | nil => intro l; simp
  | cons r rest ih =>
    intro l
    have hstep : PE.jsAccumulate [("id", PE.Value.arr l)] "id" (.big r) =
        [("id", PE.Value.arr (l ++ [.big r]))] := by
      simp [PE.jsAccumulate, PE.jsSetAssoc]
    simp only [List.foldl_cons, hstep, ih]
    simp

/-- C5 (amended): `_decode` distinguishes occurrence counts, not
labels: a field (singular or repeated) seen once keeps its bare value;
any field seen more than once accumulates ALL its occurrences, in wire
order, into an array — the last value never replaces earlier ones. -/
theorem C5_duplicate_field_amended (vs : List Nat) (h : ∀ v ∈ vs, v < 128) :
    PE.decodeMessage testEngine (vs.length + 1) (some "test.Simple")
        (singularBytes vs) =
      some (.obj (if vs.length = 0 then []
        else if vs.length = 1 then [("id", PE.Value.big (vs.headD 0))]
        else [("id", PE.Value.arr (vs.map (fun v : Nat => PE.Value.big v)))])) := by
  have hfind : PE.findMessage testEngine (some "test.Simple") = some simpleDef := rfl
  rw [PE.decodeMessage, hfind, decodeLoopSingular vs [] h]
  match vs, h with
  | [], _ => rfl
  | [v], _ => simp [PE.jsAccumulate, PE.jsSetAssoc]
  | v :: r :: rest, _ =>
    have h1 : PE.jsAccumulate [] "id" (.big v) = [("id", PE.Value.big v)] := by
      simp [PE.jsAccumulate, PE.jsSetAssoc]
    have h2 : PE.jsAccumulate [("id", PE.Value.big v)] "id" (.big r) =
        [("id", PE.Value.arr [.big v, .big r])] := by
      simp [PE.jsAccumulate, PE.jsSetAssoc]
    simp only [List.foldl_cons, h1, h2, foldAccumArr]
    simp

theorem C5_duplicate_field_witness :
    PE.decodeMessage testEngine 4 (some "test.Simple") (singularBytes [1, 2, 3]) =
      some (.obj [("id", PE.Value.arr [.big 1, .big 2, .big 3])]) :=
  C5_duplicate_field_amended [1, 2, 3] (by decide)

/-! ## Claim C4 -/

/-- C4: the claim says the fourth (last-segment) stage returns a
descriptor only if exactly one registered descriptor has that last
segment.  `SchemaManager.getMessageByName` does not: with the two
registered messages `a.Foo` and `b.Foo` (both with last segment `Foo`)
the query `c.Foo` — which matches no earlier phase — returns the FIRST
definition whose simple name matches, instead of no match. -/
theorem C4_find_message_stages_counterexample :
    SM.getMessageByName smSchemas (some "c.Foo") = some { name := "Foo", tag := 0 } ∧
    ((smSchemas.flatMap (·.2.messages)).filter
      (fun kv => lastSeg kv.1 == "Foo")).length = 2 ∧
    SM.getMessageByName smSchemas (some "c.Foo") ≠ none := by
  refine ⟨rfl, rfl, fun h => Option.noConfusion
    ((Eq.symm (rfl : SM.getMessageByName smSchemas (some "c.Foo") =
      some { name := "Foo", tag := 0 })).trans h)⟩

/-- `SchemaManager.getMessageByName` when its first three phases fail:
the fourth phase is a plain first-match on the simple name, with no
uniqueness requirement. -/
theorem smPhase4First (schemas : List (String × SM.Schema)) (q : String)
    (hq : q ≠ "")
    (h1 : (schemas.flatMap (fun fs => fs.2.messages.map
        (fun kv => (SM.normalizeName kv.1, kv.2)))).find?
        (fun m => m.1 == SM.normalizeName q) = none)
    (h2 : (schemas.flatMap (fun fs => fs.2.messages.map
        (fun kv => (SM.normalizeName kv.1, kv.2)))).find?
        (fun m => jsEndsWith m.1 ("." ++ SM.normalizeName q)) = none)
    (h3 : (schemas.flatMap (fun fs => fs.2.messages.map
        (fun kv => (SM.normalizeName kv.1, kv.2)))).find?
        (fun m => jsEndsWith (SM.normalizeName q) ("." ++ m.1)) = none) :
    SM.getMessageByName schemas (some q) =
      ((schemas.flatMap (fun fs => fs.2.messages.map
          (fun kv => (SM.normalizeName kv.1, kv.2)))).find?
        (fun m => jsToLower m.2.name ==
          (jsSplitDot (SM.normalizeName q)).getLastD "")).map (·.2) := by
  simp only [SM.getMessageByName, if_neg hq, h1, h2, h3]
  rfl

/-- C4 (amended): `ProtoEngine.findMessage` does apply the four stages
in order, the first stage producing a match wins, and its fourth stage
returns a descriptor only when exactly one registered full name has the
query's last segment; `SchemaManager.getMessageByName`, by contrast,
resolves its fourth phase by the first simple-name match with no
uniqueness requirement. -/
theorem C4_find_message_stages_amended :
    (∀ (eng : PE.Engine) (q : String), q ≠ "" →
      ∀ kv, eng.find? (fun kv => kv.1 == PE.stripDots q) = some kv →
        PE.findMessage eng (some q) = some kv.2) ∧
    (∀ (eng : PE.Engine) (q : String), q ≠ "" →
      eng.find? (fun kv => kv.1 == PE.stripDots q) = none →
      ∀ kv, eng.find? (fun kv =>
          jsEndsWith kv.1 ("." ++ PE.stripDots q) || kv.1 == PE.stripDots q) = some kv →
        PE.findMessage eng (some q) = some kv.2) ∧
    (∀ (eng : PE.Engine) (q : String), q ≠ "" →
      eng.find? (fun kv => kv.1 == PE.stripDots q) = none →
      eng.find? (fun kv =>
        jsEndsWith kv.1 ("." ++ PE.stripDots q) || kv.1 == PE.stripDots q) = none →
      ∀ kv, eng.find? (fun kv =>
          jsEndsWith (jsToLower kv.1) (jsToLower (PE.stripDots q))) = some kv →
        PE.findMessage eng (some q) = some kv.2) ∧
    (∀ (eng : PE.Engine) (q : String), q ≠ "" →
      eng.find? (fun kv => kv.1 == PE.stripDots q) = none →
      eng.find? (fun kv =>
        jsEndsWith kv.1 ("." ++ PE.stripDots q) || kv.1 == PE.stripDots q) = none →
      eng.find? (fun kv =>
        jsEndsWith (jsToLower kv.1) (jsToLower (PE.stripDots q))) = none →
        PE.findMessage eng (some q) =
          (if lastSeg (PE.stripDots q) ≠ "" ∧
              ((eng.filter (fun kv =>
                lastSeg kv.1 == lastSeg (PE.stripDots q))).map (·.2)).length = 1 then
            ((eng.filter (fun kv =>
              lastSeg kv.1 == lastSeg (PE.stripDots q))).map (·.2)).head?
          else none)) ∧
    (∀ (schemas : List (String × SM.Schema)) (q : String), q ≠ "" →
      (schemas.flatMap (fun fs => fs.2.messages.map
          (fun kv => (SM.normalizeName kv.1, kv.2)))).find?
        (fun m => m.1 == SM.normalizeName q) = none →
      (schemas.flatMap (fun fs => fs.2.messages.map
          (fun kv => (SM.normalizeName kv.1, kv.2)))).find?
        (fun m => jsEndsWith m.1 ("." ++ SM.normalizeName q)) = none →
      (schemas.flatMap (fun fs => fs.2.messages.map
          (fun kv => (SM.normalizeName kv.1, kv.2)))).find?
        (fun m => jsEndsWith (SM.normalizeName q) ("." ++ m.1)) = none →
      SM.getMessageByName schemas (some q) =
        ((schemas.flatMap (fun fs => fs.2.messages.map
            (fun kv => (SM.normalizeName kv.1, kv.2)))).find?
          (fun m => jsToLower m.2.name ==
            (jsSplitDot (SM.normalizeName q)).getLastD "")).map (·.2)) := by
  refine ⟨?_, ?_, ?_, ?_, fun schemas q hq h1 h2 h3 =>
    smPhase4First schemas q hq h1 h2 h3⟩
  · intro eng q hq kv h1
    simp only [PE.findMessage, if_neg hq, h1]
    rfl
  · intro eng q hq h1 kv h2
    simp only [PE.findMessage, if_neg hq, h1, h2]
    rfl
  · intro eng q hq h1 h2 kv h3
    simp only [PE.findMessage, if_neg hq, h1, h2, h3]
    rfl
  · intro eng q hq h1 h2 h3
    simp only [PE.findMessage, if_neg hq, h1, h2, h3, lastSeg]
    by_cases ht : ((jsSplitDot (PE.stripDots q)).getLast?).getD "" = ""
    · simp [List.getLastD_eq_getLast?, ht]
    · by_cases hlen : (eng.filter (fun kv =>
          ((jsSplitDot kv.1).getLast?).getD "" ==
            ((jsSplitDot (PE.stripDots q)).getLast?).getD "")).length = 1
      · simp [List.getLastD_eq_getLast?, ht, hlen]
      · simp [List.getLastD_eq_getLast?, ht, hlen]

theorem C4_find_message_stages_witness :
    PE.findMessage [("pkg.Msg", ({} : PE.MessageDef))] (some "pkg.Msg") =
      some ({} : PE.MessageDef) ∧
    PE.findMessage [("a.Foo", ({} : PE.MessageDef)),
      ("b.Foo", ({ isEnum := true } : PE.MessageDef))] (some "c.Foo") = none ∧
    SM.getMessageByName smSchemas (some "c.Foo") =
      some { name := "Foo", tag := 0 } :=
  ⟨C4_find_message_stages_amended.1 [("pkg.Msg", {})] "pkg.Msg" (by decide)
     ("pkg.Msg", {}) rfl,
   (C4_find_message_stages_amended.2.2.2.1
     [("a.Foo", {}), ("b.Foo", { isEnum := true })] "c.Foo" (by decide)
     rfl rfl rfl).trans rfl,
   (C4_find_message_stages_amended.2.2.2.2 smSchemas "c.Foo" (by decide)
     rfl rfl rfl).trans rfl⟩

/-! ## Claim C6 -/

/-- C6: the claim says every blind length-delimited value is resolved
by trying nested message first, then UTF-8, then hex.  The standalone
`ProtobufReader.readLengthDelimited` (protobuf-decoder.js) tries the
STRING first: on payload "hi" (68 69) it returns the string even though
the message attempt succeeds (one field, full consumption); and
ProtoEngine's hex fallback pads single-digit bytes with the letter `x`
(`x1 ff`), not zero-padded hex (`01 ff`). -/
theorem C6_blind_decode_counterexample :
    PD.readLengthDelimited 9 [0x02, 0x68, 0x69] 0 = some (.ok (.str "hi", 3)) ∧
    PD.tryDecodeAsMessage 9 [0x68, 0x69] = some (some [(13, .num 105)]) ∧
    PE.decodeMessage [] 9 none [0x0A, 0x02, 0x01, 0xFF] =
      some (.obj [("field_1", .str "x1 ff")]) ∧
    specHexOfBytes [0x01, 0xFF] = "01 ff" ∧
    PE.Value.str "x1 ff" ≠ PE.Value.str "01 ff" := by
  refine ⟨rfl, rfl, rfl, rfl, by simp⟩

/-- A single varint byte below 128 reads as itself
(`ProtobufReader` variant). -/
theorem pdReadVarintByte {v : Nat} (h : v < 128) (rest : List Nat) :
    PD.readVarint (v :: rest) 0 = .ok (v, 1) := by
  show PD.readVarintAux (List.drop 0 (v :: rest)) 0 0 0 = .ok (v, 1)
  rw [List.drop_zero, PD.readVarintAux, clearMsb h, if_pos rfl, low7And]
  norm_num [Nat.mod_eq_of_lt h, Nat.mod_eq_of_lt (show v < 4294967296 by omega)]

/-- C6 (amended): ProtoEngine's blind decode synthesizes `field_<n>`
names and resolves a length-delimited value by attempting, in order, a
nested message (accepted only with at least one field and STRICTLY more
than 80% of the bytes consumed), then strict UTF-8, then space-joined
hex in which single-digit bytes are padded with the letter `x`;
the standalone `ProtobufReader.readLengthDelimited` instead attempts
strict UTF-8 (with a printability heuristic) FIRST and a nested message
(requiring at least two bytes, one field and 100% consumption) only
second, falling back to zero-padded hex. -/
theorem C6_blind_decode_amended :
    (∀ k, k < 128 → PE.decodeMessage [] 3 none [0x08, k] =
      some (.obj [("field_1", .str (toString k))])) ∧
    (∀ (d : List Nat) (s : String), d.length < 128 →
      PD.tryDecodeAsString d = some s → ∀ fuel,
        PD.readLengthDelimited fuel (d.length :: d) 0 =
          some (.ok (.str s, 1 + d.length))) ∧
    PE.decodeMessage [] 9 none [0x0A, 0x02, 0x68, 0x69] =
      some (.obj [("field_1", .obj [("field_13", .str "105")])]) ∧
    PE.decodeMessage [] 9 none [0x0A, 0x01, 0x07] =
      some (.obj [("field_1", .str (String.mk [Char.ofNat 7]))]) ∧
    PE.decodeMessage [] 9 none [0x0A, 0x02, 0x03, 0xFF] =
      some (.obj [("field_1", .str "x3 ff")]) := by
  refine ⟨fun k h => ?_, fun d s hlen hstr fuel => ?_, rfl, rfl, rfl⟩
  · have h8 : PE.readVarint [8, k] = (8, 1) := readVarintByte (by norm_num) _
    simp +decide [PE.decodeMessage, PE.findMessage, PE.decodeLoop, h8,
      PE.readField, readVarintByte h, PE.jsAccumulate, PE.jsSetAssoc]
  · rw [PD.readLengthDelimited, pdReadVarintByte hlen]
    simp only [List.length_cons]
    rw [if_neg (by omega)]
    simp only [List.drop_succ_cons, List.drop_zero, List.take_length, hstr]

theorem C6_blind_decode_witness :
    PE.decodeMessage [] 3 none [0x08, 0x0A] =
      some (.obj [("field_1", .str "10")]) ∧
    PD.tryDecodeAsString [0x68, 0x69] = some "hi" ∧
    PD.readLengthDelimited 9 [0x02, 0x68, 0x69] 0 = some (.ok (.str "hi", 3)) :=
  ⟨C6_blind_decode_amended.1 10 (by norm_num), rfl,
   C6_blind_decode_amended.2.1 [0x68, 0x69] "hi" (by norm_num) rfl 9⟩

theorem getDAppend (pre l : List Nat) (i : Nat) :
    (pre ++ l).getD (pre.length + i) 0 = l.getD i 0 := by
  rw [List.getD_append_right _ _ _ _ (by omega)]
  congr 1
  omega

theorem byteAtShift (pre l : List Nat) (k : Int) (hk : 0 ≤ k) :
    byteAt (pre ++ l) ((pre.length : Int) + k) = l.getD k.toNat 0 := by
  rw [byteAt, if_neg (by omega)]
  rw [show ((pre.length : Int) + k).toNat = pre.length + k.toNat by omega]
  exact getDAppend pre l k.toNat

theorem toInt32Small (n : Nat) (h : n < 2147483648) : toInt32 n = n := by
  have hm : n % 4294967296 = n := Nat.mod_eq_of_lt (by omega)
  simp [toInt32, hm, h]

theorem frameLengthAt (pre : List Nat) (fl : Nat) (p rest' : List Nat)
    (hlen : p.length < 2147483648) :
    NET.frameLength (pre ++ (encodeFrame fl p ++ rest')) ((pre.length : Nat) : Int) =
      (p.length : Int) := by
  rw [NET.frameLength,
    byteAtShift pre _ 1 (by omega), byteAtShift pre _ 2 (by omega),
    byteAtShift pre _ 3 (by omega), byteAtShift pre _ 4 (by omega)]
  have hg : ∀ k : Nat, 1 ≤ k → k ≤ 4 →
      (encodeFrame fl p ++ rest').getD k 0 = (be32 p.length).getD (k - 1) 0 := by
    intro k h1 h4
    show ((fl :: (be32 p.length ++ p)) ++ rest').getD k 0 = _
    rw [List.cons_append]
    match k, h1 with
    | (j + 1), _ =>
      rw [List.getD_cons_succ]
      rw [List.append_assoc]
      rw [List.getD_append _ _ _ _ (by simp [be32]; omega)]
      simp
  rw [show ((1 : Int)).toNat = 1 from rfl, show ((2 : Int)).toNat = 2 from rfl,
    show ((3 : Int)).toNat = 3 from rfl, show ((4 : Int)).toNat = 4 from rfl]
  rw [hg 1 (by omega) (by omega), hg 2 (by omega) (by omega),
    hg 3 (by omega) (by omega), hg 4 (by omega) (by omega)]
  have : (be32 p.length).getD 0 0 * 16777216 + (be32 p.length).getD 1 0 * 65536 +
      (be32 p.length).getD 2 0 * 256 + (be32 p.length).getD 3 0 = p.length := by
    simp [be32, List.getD]
    omega
  norm_num at this ⊢
  rw [this]
  exact toInt32Small _ hlen

theorem byteAtShift0 (pre l : List Nat) :
    byteAt (pre ++ l) ((pre.length : Nat) : Int) = l.getD 0 0 := by
  have := byteAtShift pre l 0 (by omega)
  simpa using this

theorem jsSliceAt (pre : List Nat) (fl : Nat) (p rest' : List Nat) :
    jsSlice (pre ++ (encodeFrame fl p ++ rest'))
      ((pre.length : Int) + 5) ((pre.length : Int) + 5 + (p.length : Int)) = p := by
  have hsplit : pre ++ (encodeFrame fl p ++ rest') =
      (pre ++ (fl :: be32 p.length)) ++ (p ++ rest') := by
    simp [encodeFrame]
  have hl5 : (pre ++ (fl :: be32 p.length)).length = pre.length + 5 := by
    simp [be32]
  have hlenfull : (pre ++ (encodeFrame fl p ++ rest')).length =
      pre.length + 5 + p.length + rest'.length := by
    simp [encodeFrame, be32]
    omega
  rw [jsSlice]
  simp only [hlenfull]
  rw [if_neg (by omega), if_neg (by omega)]
  have h1 : ((pre.length : Int) + 5).toNat = pre.length + 5 := by omega
  have h2 : ((pre.length : Int) + 5 + (p.length : Int)).toNat =
      pre.length + 5 + p.length := by omega
  rw [h1, h2]
  rw [min_eq_left (by omega), min_eq_left (by omega)]
  rw [show pre.length + 5 + p.length - (pre.length + 5) = p.length by omega]
  rw [hsplit, show pre.length + 5 = (pre ++ (fl :: be32 p.length)).length from hl5.symm]
  rw [List.drop_left, List.take_left]

theorem netStep (inflate : List Nat → List Nat) (fuel : Nat) (pre : List Nat)
    (fl : Nat) (p rest' : List Nat) (chunks : List (List Nat)) (hf : Bool)
    (hlen : p.length < 2147483648) :
    NET.extractLoop inflate (fuel + 1) (pre ++ (encodeFrame fl p ++ rest'))
        ((pre.length : Nat) : Int) chunks hf =
      NET.extractLoop inflate fuel (pre ++ (encodeFrame fl p ++ rest'))
        ((pre.length : Int) + 5 + (p.length : Int))
        (if fl &&& 0x80 = 0 then
          chunks ++ [if fl &&& 0x01 = 1 ∧ p ≠ [] then inflate p else p]
        else chunks) true := by
  have hlenfull : ((pre ++ (encodeFrame fl p ++ rest')).length : Int) =
      (pre.length : Int) + 5 + p.length + rest'.length := by
    simp [encodeFrame, be32]
    ring
  have hfl : byteAt (pre ++ (encodeFrame fl p ++ rest')) ((pre.length : Nat) : Int) = fl :=
    byteAtShift0 pre _
  rw [NET.extractLoop]
  rw [if_pos (by rw [hlenfull]; omega)]
  rw [hfl, frameLengthAt pre fl p rest' hlen]
  rw [if_neg (by rw [hlenfull]; omega)]
  rw [jsSliceAt pre fl p rest']
  by_cases hd : fl &&& 0x80 = 0
  · by_cases hc : fl % 2 = 1
    · by_cases hp : p = []
      · subst hp
        simp [hd, hc, Nat.and_one_is_mod]
      · have hp' : (0 : Int) < (p.length : Int) := by
          have := List.length_pos.mpr hp
          omega
        simp [hd, hc, hp, hp', Nat.and_one_is_mod, List.length_pos]
    · simp [hd, hc, Nat.and_one_is_mod, List.length_pos]
  · simp [hd]

theorem netLoopFrames (inflate : List Nat → List Nat)
    (frames : List (Nat × List Nat)) :
    ∀ pre chunks, (∀ f ∈ frames, f.2.length < 2147483648) →
      NET.extractLoop inflate (frames.length + 1) (pre ++ encodeFrames frames)
          ((pre.length : Nat) : Int) chunks true =
        some (some (chunks.flatten ++
          (frames.map (dataFramePayload inflate)).flatten)) := by
  induction frames with
  | nil =>
    intro pre chunks _
    simp only [encodeFrames, List.flatMap_nil, List.append_nil, List.map_nil,
      List.flatten_nil]
    rw [NET.extractLoop]
    rw [if_neg (by omega)]
    simp
  | cons f rest ih =>
    intro pre chunks hb
    have henc : pre ++ encodeFrames (f :: rest) =
        pre ++ (encodeFrame f.1 f.2 ++ encodeFrames rest) := by
      simp [encodeFrames]
    rw [show (f :: rest).length + 1 = (rest.length + 1) + 1 by simp, henc]
    rw [netStep inflate (rest.length + 1) pre f.1 f.2 (encodeFrames rest) chunks
      true (hb f (List.mem_cons_self f rest))]
    have hpos : (pre.length : Int) + 5 + (f.2.length : Int) =
        (((pre ++ encodeFrame f.1 f.2).length : Nat) : Int) := by
      simp [encodeFrame, be32]
      ring
    rw [hpos]
    rw [show pre ++ (encodeFrame f.1 f.2 ++ encodeFrames rest) =
      (pre ++ encodeFrame f.1 f.2) ++ encodeFrames rest from
        (List.append_assoc pre _ _).symm]
    rw [ih (pre ++ encodeFrame f.1 f.2) _
      (fun x hx => hb x (List.mem_cons_of_mem _ hx))]
    by_cases hd : f.1 &&& 0x80 = 0
    · simp [hd, dataFramePayload]
    · simp [hd, dataFramePayload]

theorem netLoopFramesStart (inflate : List Nat → List Nat)
    (frames : List (Nat × List Nat)) (hne : frames ≠ []) :
    ∀ pre chunks hf, (∀ f ∈ frames, f.2.length < 2147483648) →
      NET.extractLoop inflate (frames.length + 1) (pre ++ encodeFrames frames)
          ((pre.length : Nat) : Int) chunks hf =
        some (some (chunks.flatten ++
          (frames.map (dataFramePayload inflate)).flatten)) := by
  match frames, hne with
  | f :: rest, _ =>
    intro pre chunks hf hb
    have henc : pre ++ encodeFrames (f :: rest) =
        pre ++ (encodeFrame f.1 f.2 ++ encodeFrames rest) := by
      simp [encodeFrames]
    rw [show (f :: rest).length + 1 = (rest.length + 1) + 1 by simp, henc]
    rw [netStep inflate (rest.length + 1) pre f.1 f.2 (encodeFrames rest) chunks
      hf (hb f (List.mem_cons_self f rest))]
    have hpos : (pre.length : Int) + 5 + (f.2.length : Int) =
        (((pre ++ encodeFrame f.1 f.2).length : Nat) : Int) := by
      simp [encodeFrame, be32]
      ring
    rw [hpos]
    rw [show pre ++ (encodeFrame f.1 f.2 ++ encodeFrames rest) =
      (pre ++ encodeFrame f.1 f.2) ++ encodeFrames rest from
        (List.append_assoc pre _ _).symm]
    rw [netLoopFrames inflate rest (pre ++ encodeFrame f.1 f.2) _
      (fun x hx => hb x (List.mem_cons_of_mem _ hx))]
    by_cases hd : f.1 &&& 0x80 = 0
    · simp [hd, dataFramePayload]
    · simp [hd, dataFramePayload]

theorem p3Step (fuel : Nat) (pre : List Nat) (fl : Nat) (p rest' : List Nat)
    (chunks : List (List Nat)) (hlen : p.length < 2147483648) :
    P3.extractLoop (fuel + 1) (pre ++ (encodeFrame fl p ++ rest'))
        ((pre.length : Nat) : Int) chunks =
      P3.extractLoop fuel (pre ++ (encodeFrame fl p ++ rest'))
        ((pre.length : Int) + 5 + (p.length : Int))
        (if fl &&& 0x01 = 0 then chunks ++ [p] else chunks) := by
  have hlenfull : ((pre ++ (encodeFrame fl p ++ rest')).length : Int) =
      (pre.length : Int) + 5 + p.length + rest'.length := by
    simp [encodeFrame, be32]
    ring
  have hfl : byteAt (pre ++ (encodeFrame fl p ++ rest')) ((pre.length : Nat) : Int) = fl :=
    byteAtShift0 pre _
  rw [P3.extractLoop]
  rw [if_pos (by rw [hlenfull]; omega)]
  rw [hfl, frameLengthAt pre fl p rest' hlen]
  rw [if_neg (by rw [hlenfull]; omega)]
  rw [jsSliceAt pre fl p rest']

theorem p3LoopFrames (frames : List (Nat × List Nat)) :
    ∀ pre chunks, (∀ f ∈ frames, f.2.length < 2147483648) →
      P3.extractLoop (frames.length + 1) (pre ++ encodeFrames frames)
          ((pre.length : Nat) : Int) chunks =
        some (chunks ++
          (frames.filter (fun f => f.1 &&& 0x01 = 0)).map (·.2)) := by
  induction frames with
  | nil =>
    intro pre chunks _
    simp only [encodeFrames, List.flatMap_nil, List.append_nil, List.filter_nil,
      List.map_nil]
    rw [P3.extractLoop]
    rw [if_neg (by omega)]
  | cons f rest ih =>
    intro pre chunks hb
    have henc : pre ++ encodeFrames (f :: rest) =
        pre ++ (encodeFrame f.1 f.2 ++ encodeFrames rest) := by
      simp [encodeFrames]
    rw [show (f :: rest).length + 1 = (rest.length + 1) + 1 by simp, henc]
    rw [p3Step (rest.length + 1) pre f.1 f.2 (encodeFrames rest) chunks
      (hb f (List.mem_cons_self f rest))]
    have hpos : (pre.length : Int) + 5 + (f.2.length : Int) =
        (((pre ++ encodeFrame f.1 f.2).length : Nat) : Int) := by
      simp [encodeFrame, be32]
      ring
    rw [hpos]
    rw [show pre ++ (encodeFrame f.1 f.2 ++ encodeFrames rest) =
      (pre ++ encodeFrame f.1 f.2) ++ encodeFrames rest from
        (List.append_assoc pre _ _).symm]
    rw [ih (pre ++ encodeFrame f.1 f.2) _
      (fun x hx => hb x (List.mem_cons_of_mem _ hx))]
    by_cases hd : f.1 &&& 0x01 = 0
    · have hd' : f.1 % 2 = 0 := by rwa [Nat.and_one_is_mod] at hd
      simp [hd, hd', List.filter_cons]
    · have hd' : ¬ f.1 % 2 = 0 := by rwa [Nat.and_one_is_mod] at hd
      simp [hd, hd', List.filter_cons]

theorem pdFrame (fl : Nat) (p : List Nat) (fuel : Nat)
    (hlen : p.length < 2147483648) :
    PD.decodeGrpcWebFrame (fuel + 2) (encodeFrame fl p) =
      some [{ compressed := fl = 1, isTrailer := fl = 0x80,
              length := p.length, payload := p }] := by
  have h5 : (encodeFrame fl p).length = 5 + p.length := by
    simp [encodeFrame, be32]
    omega
  have hrec : p.length / 16777216 % 256 * 16777216 + p.length / 65536 % 256 * 65536 +
      p.length / 256 % 256 * 256 + p.length % 256 = p.length := by
    omega
  rw [PD.decodeGrpcWebFrame]
  rw [show fuel + 2 = (fuel + 1) + 1 by omega]
  rw [PD.decodeGrpcWebFrameLoop]
  rw [if_pos (by omega)]
  rw [if_neg (by omega)]
  simp only [encodeFrame, be32, List.cons_append, List.getD_cons_zero,
    List.getD_cons_succ, List.length_cons, List.length_append, List.length_nil,
    List.drop_succ_cons, List.drop_zero]
  rw [hrec, toInt32Small p.length hlen]
  rw [if_neg (by push_neg; constructor <;> omega)]
  have hto : ((p.length : Int)).toNat = p.length := by omega
  simp only [hto, List.nil_append, List.take_length]
  rw [PD.decodeGrpcWebFrameLoop]
  rw [if_neg (by simp; omega)]

theorem netExtract (inflate : List Nat → List Nat) (frames : List (Nat × List Nat))
    (hne : frames ≠ []) (hb : ∀ f ∈ frames, f.2.length < 2147483648) :
    NET.extractGrpcFrames inflate (frames.length + 1) (encodeFrames frames) =
      some (some ((frames.map (dataFramePayload inflate)).flatten)) := by
  have h := netLoopFramesStart inflate frames hne [] [] false hb
  rw [NET.extractGrpcFrames]
  simpa using h

theorem p3Frames (frames : List (Nat × List Nat))
    (hb : ∀ f ∈ frames, f.2.length < 2147483648) :
    P3.extractLoop (frames.length + 1) (encodeFrames frames) 0 [] =
      some ((frames.filter (fun f => f.1 &&& 0x01 = 0)).map (·.2)) := by
  have h := p3LoopFrames frames [] [] hb
  simpa using h

/-- C2: the three framing implementations disagree with the claimed flag
semantics.  `extractPayload` (part_003) includes a frame with bit 7 set
(its payload 0xAA survives into the output), excludes a data frame with
bit 0 set (falling back to the whole raw buffer), and never inflates;
`decodeGrpcWebFrame` (protobuf-decoder.js) tests the flags byte by
equality, so flags 0x81 — bits 0 and 7 both set — is marked neither
compressed nor trailer. -/
theorem C2_framing_flags_counterexample :
    P3.extractPayloadFraming 2 [0x80, 0, 0, 0, 1, 0xAA] = some [0xAA] ∧
    0x80 &&& 0x80 ≠ 0 ∧
    P3.extractPayloadFraming 2 [0x01, 0, 0, 0, 1, 0xAA] =
      some [0x01, 0, 0, 0, 1, 0xAA] ∧
    0x01 &&& 0x80 = 0 ∧
    PD.decodeGrpcWebFrame 2 [0x81, 0, 0, 0, 1, 0x41] =
      some [{ compressed := false, isTrailer := false,
              length := 1, payload := [0x41] }] ∧
    0x81 &&& 0x01 ≠ 0 ∧ 0x81 &&& 0x80 ≠ 0 := by
  refine ⟨rfl, by decide, rfl, by decide, rfl, by decide, by decide⟩

/-- C2 (amended): only `extractGrpcFrames` of network.js implements the
claimed semantics — on any non-empty well-formed frame sequence it
returns the wire-order concatenation of the bit-7-clear frames'
payloads, each inflated exactly when bit 0 is set and the payload is
non-empty.  `extractPayload` of part_003 instead collects, without any
inflation, exactly the payloads of frames whose bit 0 is clear (bit 7 is
ignored).  `decodeGrpcWebFrame` of protobuf-decoder.js parses a single
frame but derives the flags by equality tests: compressed iff the flags
byte equals 1, trailer iff it equals 0x80. -/
theorem C2_framing_flags_amended (inflate : List Nat → List Nat)
    (frames : List (Nat × List Nat)) (hne : frames ≠ [])
    (hb : ∀ f ∈ frames, f.2.length < 2147483648)
    (fl : Nat) (p : List Nat) (fuel : Nat) (hlen : p.length < 2147483648) :
    NET.extractGrpcFrames inflate (frames.length + 1) (encodeFrames frames) =
      some (some ((frames.map (dataFramePayload inflate)).flatten)) ∧
    P3.extractLoop (frames.length + 1) (encodeFrames frames) 0 [] =
      some ((frames.filter (fun f => f.1 &&& 0x01 = 0)).map (·.2)) ∧
    PD.decodeGrpcWebFrame (fuel + 2) (encodeFrame fl p) =
      some [{ compressed := fl = 1, isTrailer := fl = 0x80,
              length := p.length, payload := p }] :=
  ⟨netExtract inflate frames hne hb, p3Frames frames hb, pdFrame fl p fuel hlen⟩

/-- C2 witness: a trailer frame (flags 0x80, payload AA) followed by a
plain data frame (flags 0x00, payload BB): network.js keeps only BB,
while part_003 keeps both AA and BB (bit 0 is clear in both flag bytes
and the set bit 7 of the first frame is ignored); and flags 0x81 yields
neither compressed nor trailer in protobuf-decoder.js. -/
theorem C2_framing_flags_witness :
    NET.extractGrpcFrames id 3 (encodeFrames [(0x80, [0xAA]), (0, [0xBB])]) =
      some (some [0xBB]) ∧
    P3.extractLoop 3 (encodeFrames [(0x80, [0xAA]), (0, [0xBB])]) 0 [] =
      some [[0xAA], [0xBB]] ∧
    PD.decodeGrpcWebFrame 2 (encodeFrame 0x81 [0x41]) =
      some [{ compressed := false, isTrailer := false,
              length := 1, payload := [0x41] }] := by
  have h := C2_framing_flags_amended id [(0x80, [0xAA]), (0, [0xBB])]
    (by decide) (by decide) 0x81 [0x41] 0 (by decide)
  exact ⟨h.1.trans rfl, h.2.1.trans rfl, h.2.2.trans rfl⟩
